import Mathlib

/-
  Verification development for the FAT-based file system in src/fatfs.c.

  Shallow embedding conventions:
  * Machine integers are modelled as Nat.  Every block index handled by the
    code is a uint16_t, hence < 65536 = MAX_BLOCKS, so no wrap-around can
    occur on indices; the one uint16_t wrap that is reachable (the
    entry_count decrement in delete_file) is modelled with an explicit
    mod 2^16.
  * The in-memory FAT (fs.fat_table) is a function Nat -> Nat.  The code
    flushes the table verbatim to disk blocks 1..128 after mutations; the
    flush copies the authoritative in-memory table and is not modelled
    separately.
  * The disk's data blocks are a function Nat -> List Nat (block number to
    block content, stored as at most BLOCK_SIZE bytes, implicitly
    zero-padded to BLOCK_SIZE when read back).
  * The program has no cd command: current_dir_block is set to
    root_dir_block (= 129) at mount and never changed, so the current
    directory block is always block 129, disjoint from every block the
    allocator can return (>= 130).  The directory block content is
    therefore carried as a typed Directory value in the state.
  * read_block / write_block fail only when the block number is
    >= total_blocks; all block numbers reaching them are uint16_t values
    < 65536 = total_blocks, so those error paths are unreachable and the
    fread/fwrite I/O failure paths are assumed away.
  * Loops are modelled by fuel-indexed structural recursion with fuel that
    provably exceeds the number of iterations the C loop can perform, so
    the zero-fuel fallback is unreachable (arguments in comments at each
    definition).
  * The C functions report errors by printing a message and returning -1;
    the distinct message sites are modelled as distinct FSErr constructors.
-/

set_option maxRecDepth 10000

namespace Fatfs

/-! ## Constants (fatfs.c lines 35-47) -/

def BLOCK_SIZE : Nat := 1024
def TOTAL_DISK_SIZE : Nat := 64 * 1024 * 1024
def MAX_BLOCKS : Nat := TOTAL_DISK_SIZE / BLOCK_SIZE
def MAX_FILES_IN_DIR : Nat := 128
def MAX_FILENAME_SIZE : Nat := 64
def MAX_FILE_BLOCKS : Nat := 128
def FAT_ENTRY_FREE : Nat := 0xFFFF
def FAT_ENTRY_EOF : Nat := 0xFFFE
def FAT_ENTRY_BAD : Nat := 0xFFFD
def TYPE_FILE : Nat := 0
def TYPE_DIRECTORY : Nat := 1

/-- Geometry derived at format time (fatfs.c lines 237-241): the FAT needs
`ceil(MAX_BLOCKS * 2 / BLOCK_SIZE)` blocks.  mount loads the boot sector
written by format, so the mounted geometry coincides with these values. -/
def FAT_BLOCKS : Nat := (MAX_BLOCKS * 2 + BLOCK_SIZE - 1) / BLOCK_SIZE
def ROOT_DIR_BLOCK : Nat := 1 + FAT_BLOCKS
def DATA_START_BLOCK : Nat := ROOT_DIR_BLOCK + 1

/-! ## Data structures (fatfs.c lines 50-86) -/

/-- DirectoryEntry (fatfs.c lines 63-71).  The NUL-terminated
`char filename[64]` is modelled as the list of its bytes before the
terminator; `filename = []` is the `filename[0] == '\0'` empty-slot test. -/
structure DirectoryEntry where
  filename : List Nat
  file_size : Nat
  first_block : Nat
  type : Nat
  created_time : Nat
  modified_time : Nat
  attributes : Nat
deriving DecidableEq

/-- The all-zero directory entry (`memset(entry, 0, sizeof(DirectoryEntry))`). -/
def zeroEntry : DirectoryEntry :=
  { filename := [], file_size := 0, first_block := 0, type := 0,
    created_time := 0, modified_time := 0, attributes := 0 }

/-- Directory (fatfs.c lines 74-77): 128 entry slots plus a u16 counter. -/
structure Directory where
  entries : List DirectoryEntry
  entry_count : Nat
deriving DecidableEq

/-- Boot sector (fatfs.c lines 50-60); the signature and volume label are
fixed strings not needed by any claim and are omitted. -/
structure BootSector where
  total_blocks : Nat
  fat_blocks : Nat
  root_dir_block : Nat
  data_start_block : Nat
  block_size : Nat
  fat_copies : Nat
  created_time : Nat
deriving DecidableEq

/-- The mounted file-system state: the in-memory FAT, the disk's data
blocks, and the content of the current directory block (always block 129,
see the header comment). -/
structure FSState where
  fat : Nat → Nat
  disk : Nat → List Nat
  dir : Directory

/-- Error outcomes, one per printf-and-return minus-one site. -/
inductive FSErr where
  | NotFound
  | NotAFile
  | TooLarge
  | OutOfSpace
  | Grow
deriving DecidableEq

/-- Result of an operation: 0 on success, -1 with a message otherwise. -/
inductive FSRes where
  | ok
  | err (e : FSErr)
deriving DecidableEq

/-! ## Small helpers -/

/-- Pointwise update of the FAT array (`fs.fat_table[i] = v`). -/
def updateFn (f : Nat → Nat) (i v : Nat) : Nat → Nat :=
  fun j => if j = i then v else f j

/-- `write_block(i, b)` on the data region of the disk. -/
def updateDisk (d : Nat → List Nat) (i : Nat) (b : List Nat) : Nat → List Nat :=
  fun j => if j = i then b else d j

/-- The BLOCK_SIZE bytes read back from a stored block (zero-padded). -/
def blockBytes (b : List Nat) : List Nat :=
  (b ++ List.replicate BLOCK_SIZE 0).take BLOCK_SIZE

/-- The 1024-byte buffer written for one chunk of data
(fatfs.c lines 550-553: memset to 0, then memcpy min(remaining, 1024)). -/
def chunkBlock (data : List Nat) : List Nat :=
  data.take BLOCK_SIZE ++ List.replicate (BLOCK_SIZE - (data.take BLOCK_SIZE).length) 0

/-! ## FAT table operations (fatfs.c lines 123-152) -/

/-- The scan loop of `allocate_block` (fatfs.c lines 124-135): starting at
index `i` with `fuel` iterations left, return the first index whose FAT
entry is FREE.  `fuel` is exactly the loop bound
`total_blocks - data_start_block`. -/
def findFree (fat : Nat → Nat) : Nat → Nat → Option Nat
  | _, 0 => none
  | i, fuel + 1 => if fat i = FAT_ENTRY_FREE then some i else findFree fat (i + 1) fuel

/-- `allocate_block` (fatfs.c lines 123-137): first-fit scan over
`[data_start_block, total_blocks)`; on a hit the entry is set to EOF (and
the FAT is flushed) and the index is returned; otherwise FAT_ENTRY_FREE is
returned.  The C return type is uint16_t and every scanned index is
< 65536, so the returned Nat equals the C return value. -/
def allocate_block (fat : Nat → Nat) : Nat × (Nat → Nat) :=
  match findFree fat DATA_START_BLOCK (MAX_BLOCKS - DATA_START_BLOCK) with
  | some i => (i, updateFn fat i FAT_ENTRY_EOF)
  | none => (FAT_ENTRY_FREE, fat)

/-- The walk of `free_blocks` (fatfs.c lines 142-146): while the current
index is neither EOF nor FREE, remember its successor, set its entry to
FREE and continue at the successor.  Each iteration either terminates or
sets one of the 65536 entries to FREE (a FREE-entried index reached as
`current` makes the very next iteration terminate), and every uint16_t
successor is a valid index, so the C loop runs at most MAX_BLOCKS + 1
iterations; that is the fuel used below. -/
def freeLoop (fat : Nat → Nat) (cur : Nat) : Nat → (Nat → Nat)
  | 0 => fat
  | fuel + 1 =>
    if cur = FAT_ENTRY_EOF ∨ cur = FAT_ENTRY_FREE then fat
    else freeLoop (updateFn fat cur FAT_ENTRY_FREE) (fat cur) fuel

/-- `free_blocks` (fatfs.c lines 139-152); the trailing flush writes the
in-memory table to disk and is not modelled. -/
def free_blocks (fat : Nat → Nat) (first_block : Nat) : Nat → Nat :=
  freeLoop fat first_block (MAX_BLOCKS + 1)

/-! ## Directory scanning (fatfs.c lines 169-182) -/

/-- The scan of `find_file_in_directory`: first slot that is occupied
(`filename[0] != '\0'`) and whose name compares equal (`strcmp == 0`),
reported with its index. -/
def findIdxFrom (l : List DirectoryEntry) (name : List Nat) (i : Nat) : Option Nat :=
  match l with
  | [] => none
  | e :: es =>
    if e.filename ≠ [] ∧ e.filename = name then some i else findIdxFrom es name (i + 1)

/-- `find_file_in_directory` (fatfs.c lines 169-182) on the 128-slot entry
array of the current directory block. -/
def findFileIdx (l : List DirectoryEntry) (name : List Nat) : Option Nat :=
  findIdxFrom l name 0

/-! ## read_file (fatfs.c lines 450-494) -/

/-- The read walk (fatfs.c lines 480-490): while the current block is not
EOF and bytes remain, output min(remaining, BLOCK_SIZE) bytes of the
current block and follow the FAT link.  `remaining` strictly decreases
every iteration, so fuel `remaining + 1` is never exhausted. -/
def readLoop (fat : Nat → Nat) (disk : Nat → List Nat) : Nat → Nat → Nat → List Nat
  | 0, _, _ => []
  | fuel + 1, cur, rem =>
    if cur = FAT_ENTRY_EOF ∨ rem = 0 then []
    else
      (blockBytes (disk cur)).take (min rem BLOCK_SIZE) ++
        readLoop fat disk fuel (fat cur) (rem - min rem BLOCK_SIZE)

/-- `read_file` (fatfs.c lines 450-494).  The bytes the C code prints to
stdout are returned as the second component; an empty file prints nothing
and succeeds.  The in-loop read_block error path is unreachable (uint16_t
block numbers are always < total_blocks). -/
def read_file (s : FSState) (name : List Nat) : FSRes × List Nat :=
  match findFileIdx s.dir.entries name with
  | none => (.err .NotFound, [])
  | some idx =>
    let e := s.dir.entries.getD idx zeroEntry
    if e.type ≠ TYPE_FILE then (.err .NotAFile, [])
    else if e.file_size = 0 then (.ok, [])
    else (.ok, readLoop s.fat s.disk (e.file_size + 1) e.first_block e.file_size)

/-! ## write_file (fatfs.c lines 496-587) -/

/-- The FAT after the head of `write_file` frees the file's existing chain
(fatfs.c lines 520-523). -/
def writeStartFat (fat : Nat → Nat) (first_block : Nat) : Nat → Nat :=
  if first_block ≠ FAT_ENTRY_EOF then free_blocks fat first_block else fat

/-- The directory entry as rewritten at the end of `write_file`
(fatfs.c lines 570-573): new head, new size, new modification time. -/
def writeEntry (e : DirectoryEntry) (first len now : Nat) : DirectoryEntry :=
  { e with first_block := first, file_size := len, modified_time := now }

/-- The allocation loop of `write_file` (fatfs.c lines 531-564): while
bytes remain, allocate a block (on failure free the chain built so far,
starting at `first`, and fail OutOfSpace — the FAT mutations persist in
the global table), record the head, link the previous block, and write the
zero-padded chunk.  Returns `none` on allocation failure, otherwise
`some (first, prev)` with the final FAT and disk.  Each iteration consumes
at least one byte of `data`, so fuel `data.length + 1` is never
exhausted.  The in-loop write_block error path is unreachable. -/
def writeLoop : Nat → (Nat → Nat) → (Nat → List Nat) → List Nat → Nat → Nat →
    Option (Nat × Nat) × (Nat → Nat) × (Nat → List Nat)
  | 0, fat, disk, _, first, prev => (some (first, prev), fat, disk)
  | fuel + 1, fat, disk, data, first, prev =>
    if data.length = 0 then (some (first, prev), fat, disk)
    else
      let nb := (allocate_block fat).1
      let fat1 := (allocate_block fat).2
      if nb = FAT_ENTRY_FREE then
        (none, (if first ≠ FAT_ENTRY_EOF then free_blocks fat1 first else fat1), disk)
      else
        let first1 := if first = FAT_ENTRY_EOF then nb else first
        let fat2 := if prev ≠ FAT_ENTRY_EOF then updateFn fat1 prev nb else fat1
        let disk1 := updateDisk disk nb (chunkBlock data)
        writeLoop fuel fat2 disk1 (data.drop BLOCK_SIZE) first1 nb

/-- The body of `write_file` once the entry has been located
(fatfs.c lines 508-586); the C locals `e`, `first_block`, `prev_block` are
inlined. -/
def write_file_found (s : FSState) (idx : Nat) (data : List Nat) (now : Nat) :
    FSRes × FSState :=
  if (s.dir.entries.getD idx zeroEntry).type ≠ TYPE_FILE then (.err .NotAFile, s)
  else if MAX_FILE_BLOCKS * BLOCK_SIZE < data.length then (.err .TooLarge, s)
  else
    match writeLoop (data.length + 1)
        (writeStartFat s.fat (s.dir.entries.getD idx zeroEntry).first_block)
        s.disk data FAT_ENTRY_EOF FAT_ENTRY_EOF with
    | (none, fat', disk') => (.err .OutOfSpace, { s with fat := fat', disk := disk' })
    | (some (first, prev), fat', disk') =>
      (.ok, { fat := if prev ≠ FAT_ENTRY_EOF then updateFn fat' prev FAT_ENTRY_EOF else fat',
              disk := disk',
              dir := { entries := s.dir.entries.set idx
                         (writeEntry (s.dir.entries.getD idx zeroEntry) first
                           data.length now),
                       entry_count := s.dir.entry_count } })

/-- `write_file` (fatfs.c lines 496-587).  `data` is the byte sequence of
the C string argument (`data_size = strlen(data)`); `now` is the value of
`time(NULL)`.  On the OutOfSpace path the directory is not rewritten but
the mutated global FAT (and the data blocks already written) persist. -/
def write_file (s : FSState) (name data : List Nat) (now : Nat) : FSRes × FSState :=
  match findFileIdx s.dir.entries name with
  | none => (.err .NotFound, s)
  | some idx => write_file_found s idx data now

/-! ## truncate_file (fatfs.c lines 589-647) -/

/-- The truncation walk (fatfs.c lines 620-626): up to `blocks_needed`
steps while the current block is not EOF, tracking (prev, current). -/
def truncWalk (fat : Nat → Nat) (prev cur : Nat) : Nat → Nat × Nat
  | 0 => (prev, cur)
  | n + 1 => if cur = FAT_ENTRY_EOF then (prev, cur) else truncWalk fat cur (fat cur) n

/-- `truncate_file` (fatfs.c lines 589-647).  Note that on the shrinking
path the directory entry's `first_block` is NOT updated — only
`file_size` and `modified_time` are (lines 636-638); this matches the
source exactly. -/
def truncate_file (s : FSState) (name : List Nat) (new_size now : Nat) : FSRes × FSState :=
  match findFileIdx s.dir.entries name with
  | none => (.err .NotFound, s)
  | some idx =>
    let e := s.dir.entries.getD idx zeroEntry
    if e.type ≠ TYPE_FILE then (.err .NotAFile, s)
    else if e.file_size < new_size then (.err .Grow, s)
    else if new_size = e.file_size then (.ok, s)
    else
      let blocks_needed := (new_size + BLOCK_SIZE - 1) / BLOCK_SIZE
      let pc := truncWalk s.fat FAT_ENTRY_EOF e.first_block blocks_needed
      let fat1 :=
        if pc.2 ≠ FAT_ENTRY_EOF then
          (if pc.1 ≠ FAT_ENTRY_EOF then
            updateFn (free_blocks s.fat pc.2) pc.1 FAT_ENTRY_EOF
          else free_blocks s.fat pc.2)
        else s.fat
      let e' := { e with file_size := new_size, modified_time := now }
      let dir' : Directory :=
        { entries := s.dir.entries.set idx e', entry_count := s.dir.entry_count }
      (.ok, { s with fat := fat1, dir := dir' })

/-! ## delete_file (fatfs.c lines 414-448) -/

/-- `delete_file` (fatfs.c lines 414-448): locate the entry (NotFound if
absent, NotAFile for a directory), free its chain when `first_block` is
not EOF, zero the slot and decrement the u16 entry counter (with uint16_t
wrap-around), then rewrite the directory block. -/
def delete_file (s : FSState) (name : List Nat) : FSRes × FSState :=
  match findFileIdx s.dir.entries name with
  | none => (.err .NotFound, s)
  | some idx =>
    let e := s.dir.entries.getD idx zeroEntry
    if e.type ≠ TYPE_FILE then (.err .NotAFile, s)
    else
      let fat1 :=
        if e.first_block ≠ FAT_ENTRY_EOF then free_blocks s.fat e.first_block else s.fat
      let dir' : Directory :=
        { entries := s.dir.entries.set idx zeroEntry,
          entry_count := (s.dir.entry_count + 65535) % 65536 }
      (.ok, { s with fat := fat1, dir := dir' })

/-! ## format_partition (fatfs.c lines 217-287) -/

/-- `format_partition` (fatfs.c lines 217-287), restricted to what it puts
on disk: the boot sector geometry, the FAT (all entries FREE, then
`[0, data_start_block)` overwritten with BAD), and the zeroed root
directory block with `entry_count = 0`. -/
def format_partition (now : Nat) : BootSector × (Nat → Nat) × Directory :=
  let fat_blocks := (MAX_BLOCKS * 2 + BLOCK_SIZE - 1) / BLOCK_SIZE
  let root_dir_block := 1 + fat_blocks
  let data_start_block := root_dir_block + 1
  let boot : BootSector :=
    { total_blocks := MAX_BLOCKS, fat_blocks := fat_blocks,
      root_dir_block := root_dir_block, data_start_block := data_start_block,
      block_size := BLOCK_SIZE, fat_copies := 1, created_time := now }
  let fat : Nat → Nat :=
    fun i => if i < data_start_block then FAT_ENTRY_BAD else FAT_ENTRY_FREE
  let root : Directory :=
    { entries := List.replicate MAX_FILES_IN_DIR zeroEntry, entry_count := 0 }
  (boot, fat, root)

end Fatfs

namespace Fatfs

lemma findFree_eq_none (fat : Nat → Nat) :
    ∀ fuel i, (∀ j, i ≤ j → j < i + fuel → fat j ≠ FAT_ENTRY_FREE) →
      findFree fat i fuel = none := by
  intro fuel
  induction fuel with
  | zero => intro i _; rfl
  | succ n ih =>
    intro i h
    have h0 : fat i ≠ FAT_ENTRY_FREE := h i (le_refl i) (by omega)
    simp only [findFree, h0, if_false]
    exact ih (i + 1) (fun j h1 h2 => h j (by omega) (by omega))

lemma findFree_eq_some (fat : Nat → Nat) :
    ∀ fuel i k, k < fuel → (∀ j, i ≤ j → j < i + k → fat j ≠ FAT_ENTRY_FREE) →
      fat (i + k) = FAT_ENTRY_FREE → findFree fat i fuel = some (i + k) := by
  intro fuel
  induction fuel with
  | zero => intro i k hk; omega
  | succ n ih =>
    intro i k hk hmiss hhit
    by_cases h0 : k = 0
    · subst h0
      simp only [findFree]
      simp only [Nat.add_zero] at hhit
      simp [hhit]
    · have hne : fat i ≠ FAT_ENTRY_FREE := hmiss i (le_refl i) (by omega)
      simp only [findFree, hne, if_false]
      have := ih (i + 1) (k - 1) (by omega)
        (fun j h1 h2 => hmiss j (by omega) (by omega))
        (by have : i + 1 + (k - 1) = i + k := by omega
            rw [this]; exact hhit)
      have harr : i + 1 + (k - 1) = i + k := by omega
      rw [harr] at this
      exact this

/-- A well-formed FAT chain: the list of blocks visited from a head block
following the FAT until the EOF terminator, pairwise distinct. -/
inductive FatChain (fat : Nat → Nat) : Nat → List Nat → Prop where
  | nil : FatChain fat FAT_ENTRY_EOF []
  | cons (b : Nat) (l : List Nat) (hlt : b < MAX_BLOCKS) (hne : b ≠ FAT_ENTRY_EOF)
      (hnf : b ≠ FAT_ENTRY_FREE) (hmem : b ∉ l)
      (htail : FatChain fat (fat b) l) : FatChain fat b (b :: l)

lemma FatChain.mem_lt {fat : Nat → Nat} {b : Nat} {l : List Nat}
    (h : FatChain fat b l) : ∀ x ∈ l, x < MAX_BLOCKS := by
  induction h with
  | nil => intro x hx; simp at hx
  | cons b l hlt hne hnf hmem htail ih =>
    intro x hx
    rcases List.mem_cons.mp hx with h1 | h2
    · subst h1; exact hlt
    · exact ih x h2

lemma FatChain.nodup {fat : Nat → Nat} {b : Nat} {l : List Nat}
    (h : FatChain fat b l) : l.Nodup := by
  induction h with
  | nil => exact List.nodup_nil
  | cons b l hlt hne hnf hmem htail ih => exact List.nodup_cons.mpr ⟨hmem, ih⟩

lemma FatChain.head_cases {fat : Nat → Nat} {b : Nat} {l : List Nat}
    (h : FatChain fat b l) :
    (b = FAT_ENTRY_EOF ∧ l = []) ∨
      (∃ l', l = b :: l' ∧ b ≠ FAT_ENTRY_EOF ∧ b ≠ FAT_ENTRY_FREE ∧ b < MAX_BLOCKS ∧
        b ∉ l' ∧ FatChain fat (fat b) l') := by
  cases h with
  | nil => exact Or.inl ⟨rfl, rfl⟩
  | cons b l hlt hne hnf hmem htail =>
    exact Or.inr ⟨l, rfl, hne, hnf, hlt, hmem, htail⟩

lemma FatChain.next_not_free {fat : Nat → Nat} {b : Nat} {l : List Nat}
    (h : FatChain fat b l) : ∀ x ∈ l, fat x ≠ FAT_ENTRY_FREE := by
  induction h with
  | nil => intro x hx; simp at hx
  | cons b l hlt hne hnf hmem htail ih =>
    intro x hx
    rcases List.mem_cons.mp hx with h1 | h2
    · subst h1
      rcases htail.head_cases with ⟨h3, _⟩ | ⟨l', _, _, h4, _, _, _⟩
      · rw [h3]; decide
      · exact h4
    · exact ih x h2

lemma FatChain.congr {fat fat' : Nat → Nat} {b : Nat} {l : List Nat}
    (h : FatChain fat b l) (heq : ∀ x ∈ l, fat' x = fat x) : FatChain fat' b l := by
  induction h with
  | nil => exact FatChain.nil
  | cons b l hlt hne hnf hmem htail ih =>
    refine FatChain.cons b l hlt hne hnf hmem ?_
    rw [heq b (List.mem_cons_self b l)]
    exact ih (fun x hx => heq x (List.mem_cons_of_mem b hx))

lemma FatChain.length_le {fat : Nat → Nat} {b : Nat} {l : List Nat}
    (h : FatChain fat b l) : l.length ≤ MAX_BLOCKS := by
  classical
  have h1 : l.toFinset.card = l.length := List.toFinset_card_of_nodup h.nodup
  have h2 : l.toFinset ⊆ Finset.range MAX_BLOCKS := by
    intro x hx
    exact Finset.mem_range.mpr (h.mem_lt x (List.mem_toFinset.mp hx))
  calc l.length = l.toFinset.card := h1.symm
    _ ≤ (Finset.range MAX_BLOCKS).card := Finset.card_le_card h2
    _ = MAX_BLOCKS := Finset.card_range _

lemma freeLoop_stop (fat : Nat → Nat) (cur fuel : Nat)
    (h : cur = FAT_ENTRY_EOF ∨ cur = FAT_ENTRY_FREE) : freeLoop fat cur fuel = fat := by
  cases fuel with
  | zero => rfl
  | succ n => simp [freeLoop, h]

lemma freeLoop_step (fat : Nat → Nat) (cur fuel : Nat)
    (h1 : cur ≠ FAT_ENTRY_EOF) (h2 : cur ≠ FAT_ENTRY_FREE) :
    freeLoop fat cur (fuel + 1) = freeLoop (updateFn fat cur FAT_ENTRY_FREE) (fat cur) fuel := by
  simp [freeLoop, h1, h2]

lemma freeLoop_chain {l : List Nat} :
    ∀ (fat : Nat → Nat) (b fuel : Nat), FatChain fat b l → l.length < fuel →
      (∀ x ∈ l, freeLoop fat b fuel x = FAT_ENTRY_FREE) ∧
      (∀ j, j ∉ l → freeLoop fat b fuel j = fat j) := by
  induction l with
  | nil =>
    intro fat b fuel hc _
    rcases hc.head_cases with ⟨hb, _⟩ | ⟨l', hcons, _⟩
    · subst hb
      rw [freeLoop_stop fat _ fuel (Or.inl rfl)]
      constructor
      · intro x hx; simp at hx
      · intro j _; rfl
    · simp at hcons
  | cons b0 l ih =>
    intro fat b fuel hc hfuel
    rcases hc.head_cases with ⟨_, hb⟩ | ⟨l', hcons, hne, hnf, hlt, hmem, htail⟩
    · simp at hb
    · have hb0 : b0 = b := by
        have := hcons; simp at this; exact this.1
      have hl : l = l' := by
        have := hcons; simp at this; exact this.2
      subst hb0
      subst hl
      obtain ⟨f, hf⟩ : ∃ f, fuel = f + 1 := ⟨fuel - 1, by omega⟩
      subst hf
      rw [freeLoop_step fat b0 f hne hnf]
      have htail' : FatChain (updateFn fat b0 FAT_ENTRY_FREE) (fat b0) l := by
        refine htail.congr ?_
        intro x hx
        unfold updateFn
        have : x ≠ b0 := fun h => hmem (h ▸ hx)
        simp [this]
      have hih := ih (updateFn fat b0 FAT_ENTRY_FREE) (fat b0) f htail'
        (by simp at hfuel; omega)
      constructor
      · intro x hx
        rcases List.mem_cons.mp hx with h1 | h2
        · subst h1
          rw [hih.2 x hmem]
          unfold updateFn; simp
        · exact hih.1 x h2
      · intro j hj
        have hjb : j ≠ b0 := fun h => hj (h ▸ List.mem_cons_self b0 l)
        have hjl : j ∉ l := fun h => hj (List.mem_cons_of_mem b0 h)
        rw [hih.2 j hjl]
        unfold updateFn; simp [hjb]

lemma free_blocks_chain {fat : Nat → Nat} {b : Nat} {l : List Nat}
    (hc : FatChain fat b l) :
    (∀ x ∈ l, free_blocks fat b x = FAT_ENTRY_FREE) ∧
    (∀ j, j ∉ l → free_blocks fat b j = fat j) := by
  have := freeLoop_chain fat b (MAX_BLOCKS + 1) hc (by have := hc.length_le; omega)
  exact this

lemma free_blocks_eof (fat : Nat → Nat) : free_blocks fat FAT_ENTRY_EOF = fat :=
  freeLoop_stop fat _ _ (Or.inl rfl)

end Fatfs

namespace Fatfs

lemma findFree_some (fat : Nat → Nat) :
    ∀ fuel i k, findFree fat i fuel = some k →
      i ≤ k ∧ k < i + fuel ∧ fat k = FAT_ENTRY_FREE := by
  intro fuel
  induction fuel with
  | zero => intro i k h; simp [findFree] at h
  | succ n ih =>
    intro i k h
    by_cases h0 : fat i = FAT_ENTRY_FREE
    · simp [findFree, h0] at h
      subst h
      exact ⟨le_refl i, by omega, h0⟩
    · simp [findFree, h0] at h
      have := ih (i + 1) k h
      exact ⟨by omega, by omega, this.2.2⟩

lemma allocate_spec (fat : Nat → Nat) (h : (allocate_block fat).1 ≠ FAT_ENTRY_FREE) :
    DATA_START_BLOCK ≤ (allocate_block fat).1 ∧ (allocate_block fat).1 < MAX_BLOCKS ∧
    fat (allocate_block fat).1 = FAT_ENTRY_FREE ∧
    (allocate_block fat).2 = updateFn fat (allocate_block fat).1 FAT_ENTRY_EOF := by
  unfold allocate_block at *
  cases hf : findFree fat DATA_START_BLOCK (MAX_BLOCKS - DATA_START_BLOCK) with
  | none => rw [hf] at h; simp at h
  | some i =>
    rw [hf] at h
    have hfs := findFree_some fat _ _ _ hf
    have hd : DATA_START_BLOCK = 130 := by decide
    have hm : MAX_BLOCKS = 65536 := by decide
    have h2 := hfs.2.1
    rw [hd, hm] at h2
    refine ⟨hfs.1, ?_, hfs.2.2, rfl⟩
    show i < MAX_BLOCKS
    rw [hm]
    omega

lemma allocate_fail (fat : Nat → Nat) (h : (allocate_block fat).1 = FAT_ENTRY_FREE) :
    (allocate_block fat).2 = fat ∨
    ((allocate_block fat).2 = updateFn fat FAT_ENTRY_FREE FAT_ENTRY_EOF ∧
      fat FAT_ENTRY_FREE = FAT_ENTRY_FREE) := by
  unfold allocate_block at *
  cases hf : findFree fat DATA_START_BLOCK (MAX_BLOCKS - DATA_START_BLOCK) with
  | none => exact Or.inl rfl
  | some i =>
    rw [hf] at h
    have hfs := findFree_some fat _ _ _ hf
    have h' : i = FAT_ENTRY_FREE := h
    subst h'
    exact Or.inr ⟨rfl, hfs.2.2⟩

/-! ## readLoop lemmas -/

lemma blockBytes_length (b : List Nat) : (blockBytes b).length = BLOCK_SIZE := by
  unfold blockBytes
  simp [List.length_take, List.length_replicate]

lemma blockBytes_of_length (b : List Nat) (h : b.length = BLOCK_SIZE) :
    blockBytes b = b := by
  unfold blockBytes
  rw [List.take_append_of_le_length (by omega)]
  exact List.take_of_length_le (by omega)

lemma readLoop_fuel (fat : Nat → Nat) (disk : Nat → List Nat) :
    ∀ f1 f2 cur rem, rem < f1 → rem < f2 →
      readLoop fat disk f1 cur rem = readLoop fat disk f2 cur rem := by
  intro f1
  induction f1 with
  | zero => intro f2 cur rem h1; omega
  | succ n ih =>
    intro f2 cur rem h1 h2
    obtain ⟨m, hm⟩ : ∃ m, f2 = m + 1 := ⟨f2 - 1, by omega⟩
    subst hm
    simp only [readLoop]
    by_cases hstop : cur = FAT_ENTRY_EOF ∨ rem = 0
    · simp [hstop]
    · simp only [hstop, if_false]
      congr 1
      have hrem : rem ≠ 0 := fun h => hstop (Or.inr h)
      exact ih m (fat cur) (rem - min rem BLOCK_SIZE)
        (by have : 0 < BLOCK_SIZE := by decide
            omega)
        (by have : 0 < BLOCK_SIZE := by decide
            omega)

lemma readLoop_length {l : List Nat} :
    ∀ (fat : Nat → Nat) (disk : Nat → List Nat) (cur rem fuel : Nat),
      FatChain fat cur l → rem < fuel →
      (readLoop fat disk fuel cur rem).length = min rem (BLOCK_SIZE * l.length) := by
  induction l with
  | nil =>
    intro fat disk cur rem fuel hc hf
    rcases hc.head_cases with ⟨hb, _⟩ | ⟨l', hcons, _⟩
    · subst hb
      obtain ⟨m, hm⟩ : ∃ m, fuel = m + 1 := ⟨fuel - 1, by omega⟩
      subst hm
      simp [readLoop]
    · simp at hcons
  | cons b0 l ih =>
    intro fat disk cur rem fuel hc hf
    rcases hc.head_cases with ⟨_, hb⟩ | ⟨l', hcons, hne, hnf, hlt, hmem, htail⟩
    · simp at hb
    · have hb0 : cur = b0 := by
        have := hcons; simp at this; exact this.1.symm
      have hl : l = l' := by
        have := hcons; simp at this; exact this.2
      subst hb0
      subst hl
      obtain ⟨m, hm⟩ : ∃ m, fuel = m + 1 := ⟨fuel - 1, by omega⟩
      subst hm
      by_cases hrem : rem = 0
      · subst hrem; simp [readLoop]
      · simp only [readLoop, hne, hrem, or_self, if_false]
        have h1 : ((blockBytes (disk cur)).take (min rem BLOCK_SIZE)).length
            = min rem BLOCK_SIZE := by
          rw [List.length_take, blockBytes_length]
          omega
        rw [List.length_append, h1,
          ih fat disk (fat cur) (rem - min rem BLOCK_SIZE) m htail
            (by have : 0 < BLOCK_SIZE := by decide
                omega)]
        simp only [List.length_cons]
        have hbs : 0 < BLOCK_SIZE := by decide
        cases Nat.le_total rem BLOCK_SIZE with
        | inl h => rw [Nat.mul_succ]; omega
        | inr h => rw [Nat.mul_succ]; omega

end Fatfs

namespace Fatfs

lemma getD_set_self {α : Type} (a d : α) :
    ∀ (l : List α) (i : Nat), i < l.length → (l.set i a).getD i d = a := by
  intro l
  induction l with
  | nil => intro i h; simp at h
  | cons x xs ih =>
    intro i h
    cases i with
    | zero => simp [List.set, List.getD]
    | succ n =>
      simp only [List.set, List.getD_cons_succ]
      exact ih n (by simp at h; omega)

lemma getD_set_ne {α : Type} (a d : α) :
    ∀ (l : List α) (i j : Nat), i ≠ j → (l.set i a).getD j d = l.getD j d := by
  intro l
  induction l with
  | nil => intro i j _; simp [List.set]
  | cons x xs ih =>
    intro i j hne
    cases i with
    | zero =>
      cases j with
      | zero => omega
      | succ m => simp [List.set]
    | succ n =>
      cases j with
      | zero => simp [List.set]
      | succ m =>
        simp only [List.set, List.getD_cons_succ]
        exact ih n m (by omega)

lemma findIdxFrom_ge {name : List Nat} :
    ∀ (l : List DirectoryEntry) (i k : Nat), findIdxFrom l name i = some k → i ≤ k := by
  intro l
  induction l with
  | nil => intro i k h; simp [findIdxFrom] at h
  | cons e es ih =>
    intro i k h
    by_cases hc : e.filename ≠ [] ∧ e.filename = name
    · simp only [findIdxFrom, if_pos hc, Option.some.injEq] at h
      omega
    · simp only [findIdxFrom, if_neg hc] at h
      have := ih (i + 1) k h
      omega

lemma findIdxFrom_spec {name : List Nat} :
    ∀ (l : List DirectoryEntry) (i k : Nat), findIdxFrom l name i = some k →
      k - i < l.length ∧ (l.getD (k - i) zeroEntry).filename = name ∧
        (l.getD (k - i) zeroEntry).filename ≠ [] := by
  intro l
  induction l with
  | nil => intro i k h; simp [findIdxFrom] at h
  | cons e es ih =>
    intro i k h
    by_cases hc : e.filename ≠ [] ∧ e.filename = name
    · simp only [findIdxFrom, if_pos hc, Option.some.injEq] at h
      subst h
      simp only [Nat.sub_self, List.getD_cons_zero, List.length_cons]
      exact ⟨by omega, hc.2, hc.1⟩
    · simp only [findIdxFrom, if_neg hc] at h
      have hge := findIdxFrom_ge es (i + 1) k h
      have := ih (i + 1) k h
      obtain ⟨m, hm⟩ : ∃ m, k - i = m + 1 := ⟨k - i - 1, by omega⟩
      rw [hm]
      have harr : k - (i + 1) = m := by omega
      rw [harr] at this
      simp only [List.getD_cons_succ, List.length_cons]
      exact ⟨by omega, this.2.1, this.2.2⟩

lemma findIdxFrom_set {name : List Nat} {e' : DirectoryEntry} :
    ∀ (l : List DirectoryEntry) (i idx : Nat),
      findIdxFrom l name i = some (i + idx) →
      e'.filename = (l.getD idx zeroEntry).filename →
      findIdxFrom (l.set idx e') name i = some (i + idx) := by
  intro l
  induction l with
  | nil => intro i idx h; simp [findIdxFrom] at h
  | cons e es ih =>
    intro i idx h hname
    by_cases hc : e.filename ≠ [] ∧ e.filename = name
    · simp only [findIdxFrom, if_pos hc, Option.some.injEq] at h
      have hidx : idx = 0 := by omega
      subst hidx
      simp only [List.getD_cons_zero] at hname
      have hn : name ≠ [] := by rw [← hc.2]; exact hc.1
      have hcond : e'.filename ≠ [] ∧ e'.filename = name := by
        rw [hname, hc.2]; exact ⟨hn, rfl⟩
      simp [List.set, findIdxFrom, if_pos hcond]
    · simp only [findIdxFrom, if_neg hc] at h
      have hge := findIdxFrom_ge es (i + 1) (i + idx) h
      obtain ⟨m, hm⟩ : ∃ m, idx = m + 1 := ⟨idx - 1, by omega⟩
      subst hm
      simp only [List.getD_cons_succ] at hname
      have harr : i + (m + 1) = (i + 1) + m := by omega
      rw [harr] at h
      have := ih (i + 1) m h hname
      simp only [List.set, findIdxFrom, if_neg hc]
      rw [harr]
      exact this

lemma findFileIdx_spec {l : List DirectoryEntry} {name : List Nat} {idx : Nat}
    (h : findFileIdx l name = some idx) :
    idx < l.length ∧ (l.getD idx zeroEntry).filename = name ∧
      (l.getD idx zeroEntry).filename ≠ [] := by
  have := findIdxFrom_spec l 0 idx h
  simpa using this

lemma findFileIdx_set (e' : DirectoryEntry) {l : List DirectoryEntry} {name : List Nat}
    {idx : Nat} (h : findFileIdx l name = some idx)
    (hname : e'.filename = (l.getD idx zeroEntry).filename) :
    findFileIdx (l.set idx e') name = some idx := by
  have h0 : findIdxFrom l name 0 = some (0 + idx) := by simpa using h
  have := findIdxFrom_set l 0 idx h0 hname
  simpa using this

end Fatfs

namespace Fatfs

lemma chunkBlock_length (data : List Nat) : (chunkBlock data).length = BLOCK_SIZE := by
  unfold chunkBlock
  simp only [List.length_append, List.length_replicate, List.length_take]
  omega

lemma chunkBlock_small {data : List Nat} (h : data.length ≤ BLOCK_SIZE) :
    chunkBlock data = data ++ List.replicate (BLOCK_SIZE - data.length) 0 := by
  unfold chunkBlock
  rw [List.take_of_length_le h]

lemma chunkBlock_big {data : List Nat} (h : BLOCK_SIZE ≤ data.length) :
    chunkBlock data = data.take BLOCK_SIZE := by
  unfold chunkBlock
  have hl : (data.take BLOCK_SIZE).length = BLOCK_SIZE := by
    rw [List.length_take]; omega
  rw [hl]
  simp

lemma readLoop_zero_rem (fat : Nat → Nat) (disk : Nat → List Nat) (fuel cur : Nat) :
    readLoop fat disk fuel cur 0 = [] := by
  cases fuel with
  | zero => rfl
  | succ n => simp [readLoop]

lemma writeLoop_succ_zero (n : Nat) (fat : Nat → Nat) (disk : Nat → List Nat)
    (data : List Nat) (first prev : Nat) (hdl : data.length = 0) :
    writeLoop (n + 1) fat disk data first prev = (some (first, prev), fat, disk) := by
  simp [writeLoop, hdl]

lemma writeLoop_succ_fail (n : Nat) (fat : Nat → Nat) (disk : Nat → List Nat)
    (data : List Nat) (first prev : Nat) (hdl : data.length ≠ 0)
    (hnb : (allocate_block fat).1 = FAT_ENTRY_FREE) :
    writeLoop (n + 1) fat disk data first prev =
      (none,
        (if first ≠ FAT_ENTRY_EOF then free_blocks (allocate_block fat).2 first
          else (allocate_block fat).2),
        disk) := by
  simp [writeLoop, hdl, hnb]

lemma writeLoop_succ_step (n : Nat) (fat : Nat → Nat) (disk : Nat → List Nat)
    (data : List Nat) (first prev : Nat) (hdl : data.length ≠ 0)
    (hnb : (allocate_block fat).1 ≠ FAT_ENTRY_FREE) :
    writeLoop (n + 1) fat disk data first prev =
      writeLoop n
        (if prev ≠ FAT_ENTRY_EOF then
          updateFn (allocate_block fat).2 prev (allocate_block fat).1
        else (allocate_block fat).2)
        (updateDisk disk (allocate_block fat).1 (chunkBlock data))
        (data.drop BLOCK_SIZE)
        (if first = FAT_ENTRY_EOF then (allocate_block fat).1 else first)
        (allocate_block fat).1 := by
  simp [writeLoop, hdl, hnb]

end Fatfs

namespace Fatfs

lemma findFree_min (fat : Nat → Nat) :
    ∀ fuel i k, findFree fat i fuel = some k →
      ∀ m, i ≤ m → m < k → fat m ≠ FAT_ENTRY_FREE := by
  intro fuel
  induction fuel with
  | zero => intro i k h; simp [findFree] at h
  | succ n ih =>
    intro i k h m h1 h2
    by_cases h0 : fat i = FAT_ENTRY_FREE
    · simp [findFree, h0] at h
      omega
    · simp only [findFree, h0, if_false] at h
      by_cases hm : m = i
      · subst hm; exact h0
      · exact ih (i + 1) k h m (by omega) h2

lemma allocate_min (fat : Nat → Nat) (h : (allocate_block fat).1 ≠ FAT_ENTRY_FREE) :
    ∀ m, DATA_START_BLOCK ≤ m → m < (allocate_block fat).1 → fat m ≠ FAT_ENTRY_FREE := by
  unfold allocate_block at *
  cases hf : findFree fat DATA_START_BLOCK (MAX_BLOCKS - DATA_START_BLOCK) with
  | none => rw [hf] at h; simp at h
  | some i =>
    rw [hf] at h
    intro m h1 h2
    exact findFree_min fat _ _ _ hf m h1 h2

lemma writeLoop_ok :
    ∀ (fuel : Nat) (fat : Nat → Nat) (disk : Nat → List Nat) (data : List Nat)
      (first prev f p : Nat) (fat' : Nat → Nat) (disk' : Nat → List Nat) (r : List Nat),
      data.length < fuel →
      r.Nodup →
      (data.length + BLOCK_SIZE - 1) / BLOCK_SIZE ≤ r.length →
      (∀ x ∈ r, DATA_START_BLOCK ≤ x ∧ x < FAT_ENTRY_EOF ∧ fat x = FAT_ENTRY_FREE) →
      (prev ≠ FAT_ENTRY_EOF → fat prev ≠ FAT_ENTRY_FREE) →
      writeLoop fuel fat disk data first prev = (some (f, p), fat', disk') →
      (∀ j, fat j ≠ FAT_ENTRY_FREE → j ≠ prev → fat' j = fat j) ∧
      (∀ j, fat j ≠ FAT_ENTRY_FREE → disk' j = disk j) ∧
      (data.length = 0 → f = first ∧ p = prev ∧ fat' = fat ∧ disk' = disk) ∧
      (data.length ≠ 0 →
        (allocate_block fat).1 ≠ FAT_ENTRY_FREE ∧
        (allocate_block fat).1 ≠ FAT_ENTRY_EOF ∧
        (first = FAT_ENTRY_EOF → f = (allocate_block fat).1) ∧
        (first ≠ FAT_ENTRY_EOF → f = first) ∧
        fat' p = FAT_ENTRY_EOF ∧
        (prev ≠ FAT_ENTRY_EOF → fat' prev = (allocate_block fat).1) ∧
        (∀ rf, data.length < rf →
          readLoop fat' disk' rf (allocate_block fat).1 data.length = data)) := by
  intro fuel
  induction fuel with
  | zero => intro fat disk data first prev f p fat' disk' r hlen; omega
  | succ n ih =>
    intro fat disk data first prev f p fat' disk' r hlen hnodup hrlen hrmem hprev heq
    by_cases hdl : data.length = 0
    · rw [writeLoop_succ_zero n fat disk data first prev hdl] at heq
      have h1 : some (first, prev) = some (f, p) := congrArg Prod.fst heq
      have h2 : fat = fat' := congrArg (fun x => x.2.1) heq
      have h3 : disk = disk' := congrArg (fun x => x.2.2) heq
      simp only [Option.some.injEq, Prod.mk.injEq] at h1
      subst h2
      subst h3
      refine ⟨fun j _ _ => rfl, fun j _ => rfl,
        fun _ => ⟨h1.1.symm, h1.2.symm, rfl, rfl⟩, fun hc => absurd hdl hc⟩
    · by_cases hnb : (allocate_block fat).1 = FAT_ENTRY_FREE
      · rw [writeLoop_succ_fail n fat disk data first prev hdl hnb] at heq
        have : (none : Option (Nat × Nat)) = some (f, p) := congrArg Prod.fst heq
        simp at this
      · rw [writeLoop_succ_step n fat disk data first prev hdl hnb] at heq
        obtain ⟨hge, hlt, hfree, hupd⟩ := allocate_spec fat hnb
        have hbs : BLOCK_SIZE = 1024 := rfl
        have hrne : r ≠ [] := by
          intro hcon
          subst hcon
          rw [hbs] at hrlen
          simp only [List.length_nil, Nat.le_zero] at hrlen
          omega
        obtain ⟨x0, hx0r⟩ := List.exists_mem_of_ne_nil r hrne
        obtain ⟨hx0ge, hx0lt, hx0free⟩ := hrmem x0 hx0r
        have hnble : (allocate_block fat).1 ≤ x0 := by
          by_contra hcon
          push_neg at hcon
          exact allocate_min fat hnb x0 hx0ge hcon hx0free
        have hnbEOF : (allocate_block fat).1 ≠ FAT_ENTRY_EOF := by
          intro hcon
          rw [hcon] at hnble
          exact absurd hx0lt (not_lt.mpr hnble)
        have hnbprev : prev ≠ FAT_ENTRY_EOF → (allocate_block fat).1 ≠ prev := by
          intro hp hcon
          rw [hcon] at hfree
          exact hprev hp hfree
        have hfat2 : ∀ j, (prev ≠ FAT_ENTRY_EOF → j ≠ prev) → j ≠ (allocate_block fat).1 →
            (if prev ≠ FAT_ENTRY_EOF then
              updateFn (allocate_block fat).2 prev (allocate_block fat).1
            else (allocate_block fat).2) j = fat j := by
          intro j hjp hjn
          by_cases hp : prev ≠ FAT_ENTRY_EOF
          · rw [if_pos hp]
            unfold updateFn
            rw [hupd]
            unfold updateFn
            simp [hjp hp, hjn]
          · rw [if_neg hp, hupd]
            unfold updateFn
            simp [hjn]
        have hfat2nb : (if prev ≠ FAT_ENTRY_EOF then
            updateFn (allocate_block fat).2 prev (allocate_block fat).1
          else (allocate_block fat).2) (allocate_block fat).1 = FAT_ENTRY_EOF := by
          by_cases hp : prev ≠ FAT_ENTRY_EOF
          · rw [if_pos hp]
            unfold updateFn
            rw [hupd]
            unfold updateFn
            simp [fun hcon => (hnbprev hp) hcon]
          · rw [if_neg hp, hupd]
            unfold updateFn
            simp
        have hfat2prev : prev ≠ FAT_ENTRY_EOF →
            (if prev ≠ FAT_ENTRY_EOF then
              updateFn (allocate_block fat).2 prev (allocate_block fat).1
            else (allocate_block fat).2) prev = (allocate_block fat).1 := by
          intro hp
          rw [if_pos hp]
          unfold updateFn
          simp
        have hdisk1 : ∀ j, j ≠ (allocate_block fat).1 →
            updateDisk disk (allocate_block fat).1 (chunkBlock data) j = disk j := by
          intro j hj
          unfold updateDisk
          simp [hj]
        have hdisk1nb :
            updateDisk disk (allocate_block fat).1 (chunkBlock data) (allocate_block fat).1
              = chunkBlock data := by
          unfold updateDisk
          simp
        have hlen' : (data.drop BLOCK_SIZE).length < n := by
          rw [List.length_drop]
          have : 0 < BLOCK_SIZE := by decide
          omega
        have hnbne : ∀ j, fat j ≠ FAT_ENTRY_FREE → j ≠ (allocate_block fat).1 := by
          intro j hj hcon
          rw [hcon] at hj
          exact hj hfree
        have hfat2ne : ∀ j, fat j ≠ FAT_ENTRY_FREE →
            (if prev ≠ FAT_ENTRY_EOF then
              updateFn (allocate_block fat).2 prev (allocate_block fat).1
            else (allocate_block fat).2) j ≠ FAT_ENTRY_FREE := by
          intro j hj
          by_cases hp : prev ≠ FAT_ENTRY_EOF
          · by_cases hjp : j = prev
            · subst hjp
              rw [hfat2prev hp]
              exact hnb
            · rw [hfat2 j (fun _ => hjp) (hnbne j hj)]
              exact hj
          · rw [hfat2 j (fun hc => absurd hc hp) (hnbne j hj)]
            exact hj
        have hnodup' : (r.erase (allocate_block fat).1).Nodup := hnodup.erase _
        have hrlen' : ((data.drop BLOCK_SIZE).length + BLOCK_SIZE - 1) / BLOCK_SIZE ≤
            (r.erase (allocate_block fat).1).length := by
          have hler : r.length - 1 ≤ (r.erase (allocate_block fat).1).length := by
            by_cases hmem : (allocate_block fat).1 ∈ r
            · rw [List.length_erase_of_mem hmem]
            · rw [List.erase_of_not_mem hmem]
              omega
          rw [List.length_drop]
          rw [hbs] at hrlen ⊢
          omega
        have hrmem' : ∀ x ∈ r.erase (allocate_block fat).1,
            DATA_START_BLOCK ≤ x ∧ x < FAT_ENTRY_EOF ∧
            (if prev ≠ FAT_ENTRY_EOF then
              updateFn (allocate_block fat).2 prev (allocate_block fat).1
            else (allocate_block fat).2) x = FAT_ENTRY_FREE := by
          intro x hx
          have hxr := (hnodup.mem_erase_iff).mp hx
          obtain ⟨hxge, hxlt, hxfree⟩ := hrmem x hxr.2
          have hxprev : prev ≠ FAT_ENTRY_EOF → x ≠ prev := by
            intro hp hcon
            rw [hcon] at hxfree
            exact hprev hp hxfree
          refine ⟨hxge, hxlt, ?_⟩
          rw [hfat2 x hxprev hxr.1]
          exact hxfree
        have hih := ih _ _ (data.drop BLOCK_SIZE) _ _ f p fat' disk'
          (r.erase (allocate_block fat).1) hlen' hnodup' hrlen' hrmem'
          (fun _ => by rw [hfat2nb]; decide)
          heq
        refine ⟨?_, ?_, fun hc => absurd hc hdl, ?_⟩
        · intro j hj hjp
          rw [hih.1 j (hfat2ne j hj) (hnbne j hj), hfat2 j (fun _ => hjp) (hnbne j hj)]
        · intro j hj
          rw [hih.2.1 j (hfat2ne j hj), hdisk1 j (hnbne j hj)]
        · intro _
          refine ⟨hnb, hnbEOF, ?_, ?_, ?_, ?_, ?_⟩
          · intro hfe
            by_cases hdl' : (data.drop BLOCK_SIZE).length = 0
            · have := (hih.2.2.1 hdl').1
              rw [this, if_pos hfe]
            · have h5 := hih.2.2.2 hdl'
              have hfne : (if first = FAT_ENTRY_EOF then (allocate_block fat).1 else first)
                  ≠ FAT_ENTRY_EOF := by
                rw [if_pos hfe]; exact hnbEOF
              rw [h5.2.2.2.1 hfne, if_pos hfe]
          · intro hfe
            by_cases hdl' : (data.drop BLOCK_SIZE).length = 0
            · have := (hih.2.2.1 hdl').1
              rw [this, if_neg hfe]
            · have h5 := hih.2.2.2 hdl'
              have hfne : (if first = FAT_ENTRY_EOF then (allocate_block fat).1 else first)
                  ≠ FAT_ENTRY_EOF := by
                rw [if_neg hfe]; exact hfe
              rw [h5.2.2.2.1 hfne, if_neg hfe]
          · by_cases hdl' : (data.drop BLOCK_SIZE).length = 0
            · have h4 := hih.2.2.1 hdl'
              rw [h4.2.1, h4.2.2.1, hfat2nb]
            · exact (hih.2.2.2 hdl').2.2.2.2.1
          · intro hp
            rw [hih.1 prev ?_ (fun hcon => (hnbprev hp) hcon.symm), hfat2prev hp]
            · rw [hfat2prev hp]
              exact hnb
          · intro rf hrf
            obtain ⟨rg, hrg⟩ : ∃ rg, rf = rg + 1 := ⟨rf - 1, by omega⟩
            subst hrg
            have hstop : ¬((allocate_block fat).1 = FAT_ENTRY_EOF ∨ data.length = 0) := by
              intro hcon
              rcases hcon with h1 | h2
              · exact hnbEOF h1
              · exact hdl h2
            simp only [readLoop, hstop, if_false]
            have hdisknb : disk' (allocate_block fat).1 = chunkBlock data := by
              rw [hih.2.1 (allocate_block fat).1 (by rw [hfat2nb]; decide), hdisk1nb]
            rw [hdisknb, blockBytes_of_length (chunkBlock data) (chunkBlock_length data)]
            by_cases hsmall : data.length ≤ BLOCK_SIZE
            · have hmin : min data.length BLOCK_SIZE = data.length := by omega
              rw [hmin]
              have hdl' : (data.drop BLOCK_SIZE).length = 0 := by
                rw [List.length_drop]; omega
              have h4 := hih.2.2.1 hdl'
              have hfatnb : fat' (allocate_block fat).1 = FAT_ENTRY_EOF := by
                rw [h4.2.2.1, hfat2nb]
              rw [Nat.sub_self, readLoop_zero_rem]
              rw [chunkBlock_small hsmall]
              rw [List.take_append_of_le_length (le_refl data.length),
                List.take_of_length_le (le_refl data.length)]
              simp
            · push_neg at hsmall
              have hmin : min data.length BLOCK_SIZE = BLOCK_SIZE := by omega
              rw [hmin]
              have hdl' : (data.drop BLOCK_SIZE).length ≠ 0 := by
                rw [List.length_drop]; omega
              have h5 := hih.2.2.2 hdl'
              have hfatnb : fat' (allocate_block fat).1 =
                  (allocate_block (if prev ≠ FAT_ENTRY_EOF then
                    updateFn (allocate_block fat).2 prev (allocate_block fat).1
                  else (allocate_block fat).2)).1 :=
                h5.2.2.2.2.2.1 hnbEOF
              rw [hfatnb]
              have hrec := h5.2.2.2.2.2.2 rg
                (by rw [List.length_drop]
                    have hbs : BLOCK_SIZE = 1024 := rfl
                    omega)
              rw [List.length_drop] at hrec
              rw [hrec]
              rw [chunkBlock_big (by omega)]
              rw [List.take_take]
              simp only [Nat.min_self]
              exact List.take_append_drop BLOCK_SIZE data

end Fatfs

namespace Fatfs

/-- C1 (amended): for every mounted state with an existing FILE entry,
after a successful `write_file name data` — provided the FAT as it stands
after the old chain has been freed still holds at least
`ceil(data.length / BLOCK_SIZE)` distinct FREE blocks at data indices
below FAT_ENTRY_EOF = 0xFFFE (the list `r`; every ordinarily reachable
state satisfies this, e.g. a freshly formatted image has 65404 such
blocks) — `read_file name` returns exactly the bytes of `data` and the
directory entry's `file_size` equals `data.length`.  The proviso
guarantees, by first-fit minimality, that the chain the write builds
never contains block 0xFFFE; without it the allocator can hand out block
0xFFFE, which the read walk mistakes for end-of-chain (see the
counterexample). -/
theorem write_read_roundtrip (s : FSState) (name data : List Nat) (now idx : Nat)
    (res : FSState) (r : List Nat)
    (hfind : findFileIdx s.dir.entries name = some idx)
    (hnodup : r.Nodup)
    (hrlen : (data.length + BLOCK_SIZE - 1) / BLOCK_SIZE ≤ r.length)
    (hrmem : ∀ x ∈ r, DATA_START_BLOCK ≤ x ∧ x < FAT_ENTRY_EOF ∧
      writeStartFat s.fat (s.dir.entries.getD idx zeroEntry).first_block x
        = FAT_ENTRY_FREE)
    (hok : write_file s name data now = (FSRes.ok, res)) :
    read_file res name = (FSRes.ok, data) ∧
      (res.dir.entries.getD idx zeroEntry).file_size = data.length := by
  unfold write_file at hok
  rw [hfind] at hok
  simp only [] at hok
  unfold write_file_found at hok
  by_cases htype : (s.dir.entries.getD idx zeroEntry).type ≠ TYPE_FILE
  · rw [if_pos htype] at hok
    have := congrArg Prod.fst hok
    simp at this
  · rw [if_neg htype] at hok
    push_neg at htype
    by_cases hlen : MAX_FILE_BLOCKS * BLOCK_SIZE < data.length
    · rw [if_pos hlen] at hok
      have := congrArg Prod.fst hok
      simp at this
    · rw [if_neg hlen] at hok
      rcases hwl : writeLoop (data.length + 1)
          (writeStartFat s.fat (s.dir.entries.getD idx zeroEntry).first_block)
          s.disk data FAT_ENTRY_EOF FAT_ENTRY_EOF with ⟨o, fat', disk'⟩
      rcases o with _ | ⟨first, prev⟩
      · rw [hwl] at hok
        have := congrArg Prod.fst hok
        simp at this
      · rw [hwl] at hok
        simp only [] at hok
        have W := writeLoop_ok (data.length + 1) _ _ data _ _ first prev fat' disk' r
          (by omega) hnodup hrlen hrmem (fun hp => absurd rfl hp) hwl
        have hres := (congrArg Prod.snd hok).symm
        simp only [] at hres
        have hidx := findFileIdx_spec hfind
        rw [hres]
        by_cases hdl : data.length = 0
        · have hdata : data = [] := List.length_eq_zero.mp hdl
          obtain ⟨hfeq, hpeq, hfat, hdisk⟩ := W.2.2.1 hdl
          constructor
          · unfold read_file
            simp only []
            rw [findFileIdx_set
              (writeEntry (s.dir.entries.getD idx zeroEntry) first data.length now)
              hfind rfl]
            simp only []
            rw [getD_set_self _ _ _ _ hidx.1]
            simp only [writeEntry]
            rw [if_neg (not_not_intro htype), if_pos hdl, hdata]
          · simp only []
            rw [getD_set_self _ _ _ _ hidx.1]
            rfl
        · have W5 := W.2.2.2 hdl
          have hfat2eq :
              (if prev ≠ FAT_ENTRY_EOF then updateFn fat' prev FAT_ENTRY_EOF else fat')
                = fat' := by
            by_cases hp : prev ≠ FAT_ENTRY_EOF
            · rw [if_pos hp]
              funext j
              unfold updateFn
              by_cases hj : j = prev
              · subst hj
                rw [if_pos rfl, W5.2.2.2.2.1]
              · rw [if_neg hj]
            · rw [if_neg hp]
          have hfirst : first = (allocate_block
              (writeStartFat s.fat (s.dir.entries.getD idx zeroEntry).first_block)).1 :=
            W5.2.2.1 rfl
          constructor
          · unfold read_file
            simp only []
            rw [findFileIdx_set
              (writeEntry (s.dir.entries.getD idx zeroEntry) first data.length now)
              hfind rfl]
            simp only []
            rw [getD_set_self _ _ _ _ hidx.1]
            simp only [writeEntry]
            rw [if_neg (not_not_intro htype), if_neg hdl, hfat2eq, hfirst,
              W5.2.2.2.2.2.2 (data.length + 1) (by omega)]
          · simp only []
            rw [getD_set_self _ _ _ _ hidx.1]
            rfl

end Fatfs

namespace Fatfs

lemma FatChain.mem_ne_eof {fat : Nat → Nat} {b : Nat} {l : List Nat}
    (h : FatChain fat b l) : ∀ x ∈ l, x ≠ FAT_ENTRY_EOF := by
  induction h with
  | nil => intro x hx; simp at hx
  | cons b l hlt hne hnf hmem htail ih =>
    intro x hx
    rcases List.mem_cons.mp hx with h1 | h2
    · subst h1; exact hne
    · exact ih x h2

lemma FatChain.mem_ne_free {fat : Nat → Nat} {b : Nat} {l : List Nat}
    (h : FatChain fat b l) : ∀ x ∈ l, x ≠ FAT_ENTRY_FREE := by
  induction h with
  | nil => intro x hx; simp at hx
  | cons b l hlt hne hnf hmem htail ih =>
    intro x hx
    rcases List.mem_cons.mp hx with h1 | h2
    · subst h1; exact hnf
    · exact ih x h2

lemma getLast?_mem {α : Type} : ∀ (l : List α) (a : α), l.getLast? = some a → a ∈ l := by
  intro l
  induction l with
  | nil => intro a h; simp at h
  | cons x xs ih =>
    intro a h
    cases xs with
    | nil =>
      simp [List.getLast?] at h
      subst h
      exact List.mem_singleton_self x
    | cons y ys =>
      rw [List.getLast?_cons_cons] at h
      exact List.mem_cons_of_mem x (ih a h)

lemma FatChain.last_eof {fat : Nat → Nat} {l : List Nat} {b a : Nat}
    (hc : FatChain fat b l) : l.getLast? = some a → fat a = FAT_ENTRY_EOF := by
  induction hc with
  | nil => intro h; simp at h
  | cons b l hlt hne hnf hmem htail ih =>
    intro h
    cases hls : l with
    | nil =>
      subst hls
      simp [List.getLast?] at h
      subst h
      rcases htail.head_cases with ⟨heof, _⟩ | ⟨l2, hcons2, _, _, _, _, _⟩
      · exact heof
      · simp at hcons2
    | cons y ys =>
      subst hls
      rw [List.getLast?_cons_cons] at h
      exact ih h

lemma FatChain.snoc {fat : Nat → Nat} {first prev nb : Nat} {pl : List Nat}
    (hc : FatChain fat first pl) :
    pl.getLast? = some prev → nb ∉ pl → nb < MAX_BLOCKS →
    nb ≠ FAT_ENTRY_EOF → nb ≠ FAT_ENTRY_FREE →
    FatChain (updateFn (updateFn fat nb FAT_ENTRY_EOF) prev nb) first (pl ++ [nb]) := by
  induction hc with
  | nil => intro hl; simp at hl
  | cons b l hlt1 hne1 hnf1 hmem1 htail ih =>
    intro hl hnm hlt hne hnf
    have hbnb : b ≠ nb := fun hcon => hnm (hcon ▸ List.mem_cons_self b l)
    cases hls : l with
    | nil =>
      subst hls
      simp [List.getLast?] at hl
      subst hl
      have hfb : fat b = FAT_ENTRY_EOF := by
        rcases htail.head_cases with ⟨heof, _⟩ | ⟨l2, hcons2, _, _, _, _, _⟩
        · exact heof
        · simp at hcons2
      refine FatChain.cons b [nb] hlt1 hne1 hnf1
        (by simp only [List.mem_singleton]; exact hbnb) ?_
      have hself : updateFn (updateFn fat nb FAT_ENTRY_EOF) b nb b = nb := by
        unfold updateFn
        simp
      rw [hself]
      refine FatChain.cons nb [] hlt hne hnf (by simp) ?_
      have hnbval : updateFn (updateFn fat nb FAT_ENTRY_EOF) b nb nb = FAT_ENTRY_EOF := by
        unfold updateFn
        rw [if_neg hbnb.symm, if_pos rfl]
      rw [hnbval]
      exact FatChain.nil
    | cons y ys =>
      subst hls
      rw [List.getLast?_cons_cons] at hl
      have hprevmem : prev ∈ y :: ys := getLast?_mem _ _ hl
      have hbprev : b ≠ prev := fun hcon => hmem1 (hcon ▸ hprevmem)
      have hih := ih hl (fun hcon => hnm (List.mem_cons_of_mem b hcon)) hlt hne hnf
      refine FatChain.cons b ((y :: ys) ++ [nb]) hlt1 hne1 hnf1 ?_ ?_
      · intro hcon
        rcases List.mem_append.mp hcon with h1 | h2
        · exact hmem1 h1
        · simp at h2
          exact hbnb h2
      · have hbval : updateFn (updateFn fat nb FAT_ENTRY_EOF) prev nb b = fat b := by
          unfold updateFn
          rw [if_neg hbprev, if_neg hbnb]
        rw [hbval]
        exact hih

end Fatfs

namespace Fatfs

/-- Loop invariant of the write loop used to analyse the failure path:
either nothing has been allocated yet, or `pl` is the chain built so far
(from `first`, ending at `prev`), or — after the allocator has handed out
block 0xFFFE, which the link step stores as a next pointer that
subsequently reads as EOF — `pl` is the chain built so far and every still
FREE data-region index is 0xFFFF. -/
def WritePC (fat : Nat → Nat) (first prev : Nat) (pl : List Nat) : Prop :=
  (first = FAT_ENTRY_EOF ∧ prev = FAT_ENTRY_EOF ∧ pl = []) ∨
  (FatChain fat first pl ∧ pl.getLast? = some prev) ∨
  (FatChain fat first pl ∧ pl ≠ [] ∧ prev = FAT_ENTRY_EOF ∧
    (∀ i, DATA_START_BLOCK ≤ i → i < MAX_BLOCKS → fat i = FAT_ENTRY_FREE →
      i = FAT_ENTRY_FREE))

/-- On the OutOfSpace path of the write loop, every block that was FREE at
entry (other than the two sentinel-valued indices) is FREE again on exit,
and so is every block of the chain built so far. -/
lemma writeLoop_fail :
    ∀ (fuel : Nat) (fat : Nat → Nat) (disk : Nat → List Nat) (data : List Nat)
      (first prev : Nat) (pl : List Nat) (fat' : Nat → Nat) (disk' : Nat → List Nat),
      writeLoop fuel fat disk data first prev = (none, fat', disk') →
      WritePC fat first prev pl →
      ∀ j, j ≠ FAT_ENTRY_EOF → j ≠ FAT_ENTRY_FREE →
        (fat j = FAT_ENTRY_FREE ∨ j ∈ pl) → fat' j = FAT_ENTRY_FREE := by
  intro fuel
  induction fuel with
  | zero =>
    intro fat disk data first prev pl fat' disk' heq
    exact absurd (congrArg Prod.fst heq) (by simp [writeLoop])
  | succ n ih =>
    intro fat disk data first prev pl fat' disk' heq hpc j hjE hjF hj
    by_cases hdl : data.length = 0
    · rw [writeLoop_succ_zero n fat disk data first prev hdl] at heq
      exact absurd (congrArg Prod.fst heq) (by simp)
    · by_cases hnb : (allocate_block fat).1 = FAT_ENTRY_FREE
      · -- allocation failed here: the chain built so far is freed
        rw [writeLoop_succ_fail n fat disk data first prev hdl hnb] at heq
        have hfat' : (if first ≠ FAT_ENTRY_EOF then free_blocks (allocate_block fat).2 first
            else (allocate_block fat).2) = fat' := congrArg (fun x => x.2.1) heq
        have hfat1j : (allocate_block fat).2 j = fat j := by
          rcases allocate_fail fat hnb with hA | ⟨hA, _⟩
          · rw [hA]
          · rw [hA]
            unfold updateFn
            rw [if_neg hjF]
        have hfat1mem : ∀ {b0 l0}, FatChain fat b0 l0 →
            FatChain ((allocate_block fat).2) b0 l0 := by
          intro b0 l0 hch
          rcases allocate_fail fat hnb with hA | ⟨hA, _⟩
          · rw [hA]; exact hch
          · rw [hA]
            refine hch.congr ?_
            intro x hx
            unfold updateFn
            rw [if_neg (hch.mem_ne_free x hx)]
        rcases hpc with ⟨hf, hp, hpl⟩ | ⟨hchain, hlast⟩ | ⟨hchain, hne, hp, hpost⟩
        · subst hpl
          rw [← hfat', if_neg (by simp [hf])]
          rcases hj with hfree | hmem
          · rw [hfat1j]; exact hfree
          · simp at hmem
        · have hfne : first ≠ FAT_ENTRY_EOF := by
            rcases hchain.head_cases with ⟨hfeof, hplnil⟩ | ⟨l', _, hfne, _⟩
            · subst hplnil; simp at hlast
            · exact hfne
          rw [← hfat', if_pos hfne]
          have hch1 := hfat1mem hchain
          rcases hj with hfree | hmem
          · by_cases hmem2 : j ∈ pl
            · exact (free_blocks_chain hch1).1 j hmem2
            · rw [(free_blocks_chain hch1).2 j hmem2, hfat1j]
              exact hfree
          · exact (free_blocks_chain hch1).1 j hmem
        · have hfne : first ≠ FAT_ENTRY_EOF := by
            rcases hchain.head_cases with ⟨hfeof, hplnil⟩ | ⟨l', _, hfne, _⟩
            · exact absurd hplnil hne
            · exact hfne
          rw [← hfat', if_pos hfne]
          have hch1 := hfat1mem hchain
          rcases hj with hfree | hmem
          · by_cases hmem2 : j ∈ pl
            · exact (free_blocks_chain hch1).1 j hmem2
            · rw [(free_blocks_chain hch1).2 j hmem2, hfat1j]
              exact hfree
          · exact (free_blocks_chain hch1).1 j hmem
      · -- allocation succeeded: push the invariant through the step
        rw [writeLoop_succ_step n fat disk data first prev hdl hnb] at heq
        obtain ⟨hge, hlt, hfree, hupd⟩ := allocate_spec fat hnb
        have hmin := allocate_min fat hnb
        -- the next FAT as a function of cases
        have hfat2val : ∀ k, (if prev ≠ FAT_ENTRY_EOF then
            updateFn (allocate_block fat).2 prev (allocate_block fat).1
          else (allocate_block fat).2) k =
            (if prev ≠ FAT_ENTRY_EOF ∧ k = prev then (allocate_block fat).1
              else if k = (allocate_block fat).1 then FAT_ENTRY_EOF else fat k) := by
          intro k
          rw [hupd]
          unfold updateFn
          by_cases hp : prev ≠ FAT_ENTRY_EOF
          · rw [if_pos hp]
            by_cases hkp : k = prev
            · rw [if_pos hkp, if_pos ⟨hp, hkp⟩]
            · rw [if_neg hkp,
                if_neg (fun hcon : prev ≠ FAT_ENTRY_EOF ∧ k = prev => hkp hcon.2)]
          · rw [if_neg hp,
              if_neg (fun hcon : prev ≠ FAT_ENTRY_EOF ∧ k = prev => hp hcon.1)]
        rcases hpc with ⟨hf, hp, hpl⟩ | ⟨hchain, hlast⟩ | ⟨hchain, hplne, hp, hpost⟩
        · -- nothing built yet
          subst hpl
          by_cases hnbE : (allocate_block fat).1 = FAT_ENTRY_EOF
          · -- the allocator handed out 0xFFFE; no head is recorded
            have hpc' : WritePC (if prev ≠ FAT_ENTRY_EOF then
                updateFn (allocate_block fat).2 prev (allocate_block fat).1
              else (allocate_block fat).2)
                (if first = FAT_ENTRY_EOF then (allocate_block fat).1 else first)
                (allocate_block fat).1 [] := by
              left
              refine ⟨by rw [if_pos hf, hnbE], hnbE, rfl⟩
            have := ih _ _ _ _ _ [] _ _ heq hpc' j hjE hjF
            apply this
            left
            rw [hfat2val]
            rcases hj with hfree2 | hmem
            · rw [if_neg (by rw [hp]; simp), if_neg (by rw [hnbE]; exact hjE)]
              exact hfree2
            · simp at hmem
          · -- a fresh head block
            have hchain' : FatChain (if prev ≠ FAT_ENTRY_EOF then
                updateFn (allocate_block fat).2 prev (allocate_block fat).1
              else (allocate_block fat).2) (allocate_block fat).1 [(allocate_block fat).1] := by
              refine FatChain.cons _ [] hlt hnbE hnb (by simp) ?_
              have : (if prev ≠ FAT_ENTRY_EOF then
                  updateFn (allocate_block fat).2 prev (allocate_block fat).1
                else (allocate_block fat).2) (allocate_block fat).1 = FAT_ENTRY_EOF := by
                rw [hfat2val, if_neg (by rw [hp]; simp), if_pos rfl]
              rw [this]
              exact FatChain.nil
            have hpc' : WritePC (if prev ≠ FAT_ENTRY_EOF then
                updateFn (allocate_block fat).2 prev (allocate_block fat).1
              else (allocate_block fat).2)
                (if first = FAT_ENTRY_EOF then (allocate_block fat).1 else first)
                (allocate_block fat).1 [(allocate_block fat).1] := by
              right; left
              rw [if_pos hf]
              exact ⟨hchain', rfl⟩
            have := ih _ _ _ _ _ [(allocate_block fat).1] _ _ heq hpc' j hjE hjF
            apply this
            rcases hj with hfree2 | hmem
            · by_cases hjnb : j = (allocate_block fat).1
              · right; simp [hjnb]
              · left
                rw [hfat2val, if_neg (by rw [hp]; simp), if_neg hjnb]
                exact hfree2
            · simp at hmem
        · -- a nonempty proper chain
          have hprevmem : prev ∈ pl := getLast?_mem _ _ hlast
          have hprevne : prev ≠ FAT_ENTRY_EOF := hchain.mem_ne_eof prev hprevmem
          have hprevlast : fat prev = FAT_ENTRY_EOF := hchain.last_eof hlast
          have hfne : first ≠ FAT_ENTRY_EOF := by
            rcases hchain.head_cases with ⟨hfeof, hplnil⟩ | ⟨l', _, hfne, _⟩
            · subst hplnil; simp at hlast
            · exact hfne
          have hnbpl : (allocate_block fat).1 ∉ pl := by
            intro hcon
            exact (hchain.next_not_free _ hcon) hfree
          by_cases hnbE : (allocate_block fat).1 = FAT_ENTRY_EOF
          · -- the 0xFFFE poison step: the chain itself is unchanged
            have hchain2 : FatChain (if prev ≠ FAT_ENTRY_EOF then
                updateFn (allocate_block fat).2 prev (allocate_block fat).1
              else (allocate_block fat).2) first pl := by
              refine hchain.congr ?_
              intro x hx
              rw [hfat2val]
              by_cases hxp : x = prev
              · rw [if_pos ⟨hprevne, hxp⟩, hnbE, hxp, hprevlast]
              · rw [if_neg (fun hcon => hxp hcon.2),
                  if_neg (by rw [hnbE]; exact hchain.mem_ne_eof x hx)]
            have hpost2 : ∀ i, DATA_START_BLOCK ≤ i → i < MAX_BLOCKS →
                (if prev ≠ FAT_ENTRY_EOF then
                  updateFn (allocate_block fat).2 prev (allocate_block fat).1
                else (allocate_block fat).2) i = FAT_ENTRY_FREE →
                i = FAT_ENTRY_FREE := by
              intro i h1 h2 h3
              rw [hfat2val] at h3
              by_cases hip : prev ≠ FAT_ENTRY_EOF ∧ i = prev
              · rw [if_pos hip] at h3
                exact absurd h3 hnb
              · rw [if_neg hip] at h3
                by_cases hinb : i = (allocate_block fat).1
                · rw [if_pos hinb] at h3
                  exact absurd h3 (by decide)
                · rw [if_neg hinb] at h3
                  rcases Nat.lt_or_ge i (allocate_block fat).1 with hlt2 | hge2
                  · exact absurd h3 (hmin i h1 hlt2)
                  · have hEOF : FAT_ENTRY_EOF = 65534 := rfl
                    have hFREE : FAT_ENTRY_FREE = 65535 := rfl
                    have hMB : MAX_BLOCKS = 65536 := by decide
                    rw [hnbE] at hge2 hinb
                    omega
            have hpc' : WritePC (if prev ≠ FAT_ENTRY_EOF then
                updateFn (allocate_block fat).2 prev (allocate_block fat).1
              else (allocate_block fat).2)
                (if first = FAT_ENTRY_EOF then (allocate_block fat).1
                else first) (allocate_block fat).1 pl := by
              right; right
              rw [if_neg hfne]
              refine ⟨hchain2, ?_, hnbE, hpost2⟩
              intro hcon
              subst hcon
              simp at hlast
            have := ih _ _ _ _ _ pl _ _ heq hpc' j hjE hjF
            apply this
            rcases hj with hfree2 | hmem
            · left
              rw [hfat2val,
                if_neg (fun hcon : prev ≠ FAT_ENTRY_EOF ∧ j = prev =>
                  (hchain.next_not_free prev hprevmem) (hcon.2 ▸ hfree2)),
                if_neg (fun hcon : j = (allocate_block fat).1 => hjE (hcon.trans hnbE))]
              exact hfree2
            · right; exact hmem
          · -- the regular step: extend the chain with the new block
            have hchain2 : FatChain (updateFn (updateFn fat (allocate_block fat).1
                FAT_ENTRY_EOF) prev (allocate_block fat).1) first
                (pl ++ [(allocate_block fat).1]) :=
              hchain.snoc hlast hnbpl hlt hnbE hnb
            have hfat2fn : (if prev ≠ FAT_ENTRY_EOF then
                updateFn (allocate_block fat).2 prev (allocate_block fat).1
              else (allocate_block fat).2) =
                updateFn (updateFn fat (allocate_block fat).1 FAT_ENTRY_EOF) prev
                  (allocate_block fat).1 := by
              rw [if_pos hprevne, hupd]
            have hpc' : WritePC (if prev ≠ FAT_ENTRY_EOF then
                updateFn (allocate_block fat).2 prev (allocate_block fat).1
              else (allocate_block fat).2)
                (if first = FAT_ENTRY_EOF then (allocate_block fat).1
                else first) (allocate_block fat).1 (pl ++ [(allocate_block fat).1]) := by
              right; left
              rw [if_neg hfne, hfat2fn]
              exact ⟨hchain2, List.getLast?_concat _⟩
            have := ih _ _ _ _ _ (pl ++ [(allocate_block fat).1]) _ _ heq hpc' j hjE hjF
            apply this
            rcases hj with hfree2 | hmem
            · by_cases hjnb : j = (allocate_block fat).1
              · right
                rw [hjnb]
                exact List.mem_append.mpr (Or.inr (by simp))
              · left
                rw [hfat2val,
                  if_neg (fun hcon : prev ≠ FAT_ENTRY_EOF ∧ j = prev =>
                    (hchain.next_not_free prev hprevmem) (hcon.2 ▸ hfree2)),
                  if_neg hjnb]
                exact hfree2
            · right
              exact List.mem_append.mpr (Or.inl hmem)
        · -- post-poison state: the only allocatable index is 0xFFFF, so a
          -- successful allocation is impossible here
          exfalso
          have h1 := hpost (allocate_block fat).1 hge hlt hfree
          exact hnb h1

end Fatfs

namespace Fatfs

/-- C10: `write_file` is not atomic on allocation failure.  For a file
whose entry has `first_block ≠ EOF` (its chain being `l`), when
`write_file` returns OutOfSpace the directory block is not rewritten — the
on-disk entry still holds the old `first_block` and `file_size` — while
every block of the old chain is FREE in the FAT (the old chain is freed
up front and any partial new chain is freed again on the error path). -/
theorem write_file_nonatomic (s : FSState) (name data : List Nat) (now idx : Nat)
    (l : List Nat) (res : FSState)
    (hfind : findFileIdx s.dir.entries name = some idx)
    (hfb : (s.dir.entries.getD idx zeroEntry).first_block ≠ FAT_ENTRY_EOF)
    (hchain : FatChain s.fat (s.dir.entries.getD idx zeroEntry).first_block l)
    (hfail : write_file s name data now = (FSRes.err FSErr.OutOfSpace, res)) :
    res.dir = s.dir ∧ ∀ x ∈ l, res.fat x = FAT_ENTRY_FREE := by
  unfold write_file at hfail
  rw [hfind] at hfail
  simp only [] at hfail
  unfold write_file_found at hfail
  by_cases htype : (s.dir.entries.getD idx zeroEntry).type ≠ TYPE_FILE
  · rw [if_pos htype] at hfail
    exact absurd (congrArg Prod.fst hfail) (by simp)
  · rw [if_neg htype] at hfail
    by_cases hlen : MAX_FILE_BLOCKS * BLOCK_SIZE < data.length
    · rw [if_pos hlen] at hfail
      exact absurd (congrArg Prod.fst hfail) (by simp)
    · rw [if_neg hlen] at hfail
      rcases hwl : writeLoop (data.length + 1)
          (writeStartFat s.fat (s.dir.entries.getD idx zeroEntry).first_block)
          s.disk data FAT_ENTRY_EOF FAT_ENTRY_EOF with ⟨o, fat', disk'⟩
      rcases o with _ | ⟨first, prev⟩
      · rw [hwl] at hfail
        simp only [] at hfail
        have hres := (congrArg Prod.snd hfail).symm
        simp only [] at hres
        rw [hres]
        refine ⟨rfl, ?_⟩
        intro x hx
        have hfat0 : writeStartFat s.fat (s.dir.entries.getD idx zeroEntry).first_block x
            = FAT_ENTRY_FREE := by
          unfold writeStartFat
          rw [if_pos hfb]
          exact (free_blocks_chain hchain).1 x hx
        exact writeLoop_fail _ _ _ _ _ _ [] _ _ hwl (Or.inl ⟨rfl, rfl, rfl⟩)
          x (hchain.mem_ne_eof x hx) (hchain.mem_ne_free x hx) (Or.inl hfat0)
      · rw [hwl] at hfail
        simp only [] at hfail
        exact absurd (congrArg Prod.fst hfail) (by simp)

end Fatfs

namespace Fatfs

/-- Demo state for claims about an existing one-block file: entry
`"a"` (byte 97) with `file_size = 5`, `first_block = 130`, and
`fat 130 = EOF`. -/
def demoEntry : DirectoryEntry :=
  { filename := [97], file_size := 5, first_block := 130, type := TYPE_FILE,
    created_time := 0, modified_time := 0, attributes := 0 }

def demoDir : Directory :=
  { entries := demoEntry :: List.replicate 127 zeroEntry, entry_count := 1 }

def demoFat : Nat → Nat := fun i => if i = 130 then FAT_ENTRY_EOF else FAT_ENTRY_FREE

def demoState : FSState :=
  { fat := demoFat, disk := fun _ => [104, 101, 108, 108, 111], dir := demoDir }

/-- A FAT with no free block at all except the chain block 130 of the demo
file: every other entry holds BAD, so after the old chain is freed only
block 130 can be allocated and a two-block write must run out of space. -/
def c10Fat : Nat → Nat := fun i => if i = 130 then FAT_ENTRY_EOF else FAT_ENTRY_BAD

def c10State : FSState := { fat := c10Fat, disk := fun _ => [], dir := demoDir }

lemma c10_chain : FatChain c10Fat 130 [130] := by
  refine FatChain.cons 130 [] (by decide) (by decide) (by decide) (by simp) ?_
  exact FatChain.nil

lemma c10_fat0_ne (j : Nat) (hj : j ≠ 130) :
    writeStartFat c10Fat 130 j = c10Fat j := by
  unfold writeStartFat
  rw [if_pos (by decide)]
  exact (free_blocks_chain c10_chain).2 j (by simp [hj])

lemma c10_fat0_at : writeStartFat c10Fat 130 130 = FAT_ENTRY_FREE := by
  unfold writeStartFat
  rw [if_pos (by decide)]
  exact (free_blocks_chain c10_chain).1 130 (by simp)

lemma allocate_of_findFree_some (fat : Nat → Nat) (i : Nat)
    (h : findFree fat DATA_START_BLOCK (MAX_BLOCKS - DATA_START_BLOCK) = some i) :
    allocate_block fat = (i, updateFn fat i FAT_ENTRY_EOF) := by
  unfold allocate_block
  rw [h]

lemma allocate_of_findFree_none (fat : Nat → Nat)
    (h : findFree fat DATA_START_BLOCK (MAX_BLOCKS - DATA_START_BLOCK) = none) :
    allocate_block fat = (FAT_ENTRY_FREE, fat) := by
  unfold allocate_block
  rw [h]

lemma c10_alloc1 : allocate_block (writeStartFat c10Fat 130) =
    (130, updateFn (writeStartFat c10Fat 130) 130 FAT_ENTRY_EOF) := by
  have hhit : writeStartFat c10Fat 130 (DATA_START_BLOCK + 0) = FAT_ENTRY_FREE := by
    have h130 : DATA_START_BLOCK + 0 = 130 := by decide
    rw [h130]
    exact c10_fat0_at
  have hB := findFree_eq_some (writeStartFat c10Fat 130) (MAX_BLOCKS - DATA_START_BLOCK)
    DATA_START_BLOCK 0 (by decide) (fun j h1 h2 => absurd h2 (by omega)) hhit
  have h130 : DATA_START_BLOCK + 0 = 130 := by decide
  rw [h130] at hB
  exact allocate_of_findFree_some _ 130 hB

lemma c10_alloc2 : allocate_block (updateFn (writeStartFat c10Fat 130) 130 FAT_ENTRY_EOF) =
    (FAT_ENTRY_FREE, updateFn (writeStartFat c10Fat 130) 130 FAT_ENTRY_EOF) := by
  have hmiss : ∀ j, DATA_START_BLOCK ≤ j → j < DATA_START_BLOCK +
      (MAX_BLOCKS - DATA_START_BLOCK) →
      updateFn (writeStartFat c10Fat 130) 130 FAT_ENTRY_EOF j ≠ FAT_ENTRY_FREE := by
    intro j h1 h2
    unfold updateFn
    by_cases hj : j = 130
    · rw [if_pos hj]
      decide
    · rw [if_neg hj, c10_fat0_ne j hj]
      unfold c10Fat
      rw [if_neg hj]
      decide
  have hC := findFree_eq_none (updateFn (writeStartFat c10Fat 130) 130 FAT_ENTRY_EOF)
    (MAX_BLOCKS - DATA_START_BLOCK) DATA_START_BLOCK hmiss
  exact allocate_of_findFree_none _ hC

lemma drop_replicate {α : Type} (a : α) :
    ∀ n m, (List.replicate n a).drop m = List.replicate (n - m) a := by
  intro n
  induction n with
  | zero => intro m; simp
  | succ k ih =>
    intro m
    cases m with
    | zero => simp
    | succ m2 =>
      rw [List.replicate_succ, List.drop_succ_cons, ih m2]
      congr 1
      omega

lemma c10_writeloop :
    writeLoop ((List.replicate 1025 7 : List Nat).length + 1) (writeStartFat c10Fat 130)
      (fun _ => ([] : List Nat)) (List.replicate 1025 7) FAT_ENTRY_EOF FAT_ENTRY_EOF =
    (none, free_blocks (updateFn (writeStartFat c10Fat 130) 130 FAT_ENTRY_EOF) 130,
      updateDisk (fun _ => ([] : List Nat)) 130 (chunkBlock (List.replicate 1025 7))) := by
  rw [show ((List.replicate 1025 7 : List Nat).length + 1) = 1025 + 1 from
    by rw [List.length_replicate]]
  rw [writeLoop_succ_step 1025 _ _ _ _ _
    (by rw [List.length_replicate]; decide) (by rw [c10_alloc1]; decide)]
  rw [show (allocate_block (writeStartFat c10Fat 130)).1 = 130 from by rw [c10_alloc1]]
  rw [show (allocate_block (writeStartFat c10Fat 130)).2 =
    updateFn (writeStartFat c10Fat 130) 130 FAT_ENTRY_EOF from by rw [c10_alloc1]]
  rw [if_neg (show ¬(FAT_ENTRY_EOF ≠ FAT_ENTRY_EOF) from by simp), if_pos rfl]
  rw [show ((List.replicate 1025 7 : List Nat).drop BLOCK_SIZE) = [7] from by
    rw [drop_replicate]
    rw [show (1025 - BLOCK_SIZE : Nat) = 1 from by decide]
    rfl]
  rw [show (1025 : Nat) = 1024 + 1 from rfl]
  rw [writeLoop_succ_fail 1024 _ _ _ _ _ (by decide) (by rw [c10_alloc2])]
  rw [show (allocate_block (updateFn (writeStartFat c10Fat 130) 130 FAT_ENTRY_EOF)).2 =
    updateFn (writeStartFat c10Fat 130) 130 FAT_ENTRY_EOF from by rw [c10_alloc2]]
  rw [if_pos (show (130 : Nat) ≠ FAT_ENTRY_EOF from by decide)]

/-- The state in which the failing two-block write leaves the system. -/
def c10Res : FSState :=
  { fat := free_blocks (updateFn (writeStartFat c10Fat 130) 130 FAT_ENTRY_EOF) 130,
    disk := updateDisk (fun _ => ([] : List Nat)) 130
      (chunkBlock (List.replicate 1025 7)),
    dir := demoDir }

lemma c10_write_eq :
    write_file c10State [97] (List.replicate 1025 7) 0 =
      (FSRes.err FSErr.OutOfSpace, c10Res) := by
  unfold write_file
  rw [show findFileIdx c10State.dir.entries [97] = some 0 from by decide]
  simp only []
  unfold write_file_found
  rw [if_neg (show ¬((c10State.dir.entries.getD 0 zeroEntry).type ≠ TYPE_FILE)
    from by decide)]
  rw [if_neg (show ¬(MAX_FILE_BLOCKS * BLOCK_SIZE <
    (List.replicate 1025 7 : List Nat).length) from by
      rw [List.length_replicate]; decide)]
  rw [show (c10State.dir.entries.getD 0 zeroEntry).first_block = 130 from by decide]
  rw [show c10State.fat = c10Fat from rfl]
  rw [show c10State.disk = (fun _ => ([] : List Nat)) from rfl]
  rw [c10_writeloop]
  rfl

/-- Witness for write_file_nonatomic at a concrete state. -/
theorem write_file_nonatomic_witness :
    write_file c10State [97] (List.replicate 1025 7) 0 =
      (FSRes.err FSErr.OutOfSpace, c10Res) ∧
    c10Res.dir = c10State.dir ∧ c10Res.fat 130 = FAT_ENTRY_FREE := by
  have hmain := write_file_nonatomic c10State [97] (List.replicate 1025 7) 0 0 [130] c10Res
    (by decide) (by decide) c10_chain c10_write_eq
  exact ⟨c10_write_eq, hmain.1, hmain.2 130 (by simp)⟩

end Fatfs

namespace Fatfs

/-- C2 (code bug): the invariant `file_size == 0 iff first_block == EOF`
does not survive `truncate_file(name, 0)`.  On a file of 5 bytes with
chain [130], the truncation succeeds and leaves `file_size = 0` while
`first_block` is still 130 (truncate_file never rewrites `first_block`,
fatfs.c lines 636-638). -/
theorem truncate_zero_invariant_break :
    (truncate_file demoState [97] 0 7).1 = FSRes.ok ∧
    ((truncate_file demoState [97] 0 7).2.dir.entries.getD 0 zeroEntry).file_size = 0 ∧
    ((truncate_file demoState [97] 0 7).2.dir.entries.getD 0 zeroEntry).first_block = 130 ∧
    (130 : Nat) ≠ FAT_ENTRY_EOF := by decide

/-- C3 (code bug): `truncate_file(name, 0)` frees the whole chain (block
130 becomes FREE) but does not set the entry's `first_block` to EOF — the
entry keeps the dangling head 130. -/
theorem truncate_zero_first_block_stale :
    (truncate_file demoState [97] 0 7).1 = FSRes.ok ∧
    (truncate_file demoState [97] 0 7).2.fat 130 = FAT_ENTRY_FREE ∧
    demoFat 130 = FAT_ENTRY_EOF ∧
    ((truncate_file demoState [97] 0 7).2.dir.entries.getD 0 zeroEntry).first_block
      ≠ FAT_ENTRY_EOF := by decide

/-- The FAT in which the only FREE data block is the last index 0xFFFF. -/
def c4Fat : Nat → Nat := fun i => if i = 65535 then FAT_ENTRY_FREE else FAT_ENTRY_EOF

/-- C4 (code bug): when the only FREE data block is index 0xFFFF = 65535,
`allocate_block` does scan it (it does not skip 0xFFFF), marks it EOF in
the FAT, and then returns 65535 — the very value FAT_ENTRY_FREE used to
signal OutOfSpace — so the caller cannot distinguish this "success" from
failure and the block is leaked. -/
theorem allocate_last_block_collision :
    c4Fat 65535 = FAT_ENTRY_FREE ∧
    (allocate_block c4Fat).1 = FAT_ENTRY_FREE ∧
    (allocate_block c4Fat).2 65535 = FAT_ENTRY_EOF := by
  have hd : DATA_START_BLOCK = 130 := by decide
  have hmiss : ∀ j, DATA_START_BLOCK ≤ j → j < DATA_START_BLOCK + 65405 →
      c4Fat j ≠ FAT_ENTRY_FREE := by
    intro j h1 h2
    rw [hd] at h1 h2
    unfold c4Fat
    rw [if_neg (by omega)]
    decide
  have hhit : c4Fat (DATA_START_BLOCK + 65405) = FAT_ENTRY_FREE := by decide
  have hB := findFree_eq_some c4Fat (MAX_BLOCKS - DATA_START_BLOCK) DATA_START_BLOCK 65405
    (by decide) hmiss hhit
  have h65535 : DATA_START_BLOCK + 65405 = 65535 := by decide
  rw [h65535] at hB
  have hA := allocate_of_findFree_some c4Fat 65535 hB
  refine ⟨by decide, ?_, ?_⟩
  · rw [hA]
    decide
  · rw [hA]
    decide

/-- C6: `truncate_file` is shrink-only.  On an existing FILE entry it
fails with Grow whenever `new_size > file_size`, returning the state
unchanged, and succeeds as a no-op whenever `new_size = file_size`. -/
theorem truncate_grow_and_noop (s : FSState) (name : List Nat) (idx new_size now : Nat)
    (hfind : findFileIdx s.dir.entries name = some idx)
    (htype : (s.dir.entries.getD idx zeroEntry).type = TYPE_FILE) :
    ((s.dir.entries.getD idx zeroEntry).file_size < new_size →
      truncate_file s name new_size now = (FSRes.err FSErr.Grow, s)) ∧
    (new_size = (s.dir.entries.getD idx zeroEntry).file_size →
      truncate_file s name new_size now = (FSRes.ok, s)) := by
  unfold truncate_file
  rw [hfind]
  simp only []
  rw [if_neg (not_not_intro htype)]
  constructor
  · intro hlt
    rw [if_pos hlt]
  · intro heq
    rw [if_neg (by omega), if_pos heq]

theorem truncate_grow_and_noop_witness :
    truncate_file demoState [97] 99 0 = (FSRes.err FSErr.Grow, demoState) ∧
    truncate_file demoState [97] 5 0 = (FSRes.ok, demoState) := by
  have h := truncate_grow_and_noop demoState [97] 0 99 0 (by decide) (by decide)
  have h2 := truncate_grow_and_noop demoState [97] 0 5 0 (by decide) (by decide)
  exact ⟨h.1 (by decide), h2.2 (by decide)⟩

end Fatfs

namespace Fatfs

/-- A FAT in which block 200's next pointer is the BAD sentinel and the
entry at index 0xFFFD (= BAD) holds EOF. -/
def c5Fat : Nat → Nat := fun i => if i = 200 then FAT_ENTRY_BAD else FAT_ENTRY_EOF

/-- C5 counterexample: `free_blocks` follows a BAD next pointer as if it
were a block index — the FAT entry at index 0xFFFD is modified (EOF
becomes FREE), contradicting the claim that BAD is never followed. -/
theorem free_blocks_bad_followed_cex :
    (free_blocks c5Fat 200) FAT_ENTRY_BAD = FAT_ENTRY_FREE ∧
    c5Fat FAT_ENTRY_BAD = FAT_ENTRY_EOF := by decide

/-- C5 (amended): `free_blocks` sets the FAT entry of every block of an
EOF-terminated chain to FREE (leaving all other entries unchanged),
terminates when the next pointer is EOF or FREE, and is a no-op when
called with head EOF; however BAD is NOT treated as a terminator: a BAD
next pointer is followed as ordinary block index 0xFFFD, whose entry (here
holding EOF) is overwritten with FREE. -/
theorem free_blocks_spec_amended :
    (∀ fat : Nat → Nat, free_blocks fat FAT_ENTRY_EOF = fat) ∧
    (∀ (fat : Nat → Nat) (b : Nat) (l : List Nat), FatChain fat b l →
      (∀ x ∈ l, free_blocks fat b x = FAT_ENTRY_FREE) ∧
      (∀ j, j ∉ l → free_blocks fat b j = fat j)) ∧
    (∀ (fat : Nat → Nat) (h : Nat), h ≠ FAT_ENTRY_EOF → h ≠ FAT_ENTRY_FREE →
      fat h = FAT_ENTRY_BAD → fat FAT_ENTRY_BAD = FAT_ENTRY_EOF →
      (free_blocks fat h) FAT_ENTRY_BAD = FAT_ENTRY_FREE) := by
  refine ⟨free_blocks_eof, fun fat b l hc => free_blocks_chain hc, ?_⟩
  intro fat h hne hnf hbad hbadentry
  have hhb : h ≠ FAT_ENTRY_BAD := by
    intro hcon
    rw [hcon, hbadentry] at hbad
    exact absurd hbad (by decide)
  unfold free_blocks
  rw [freeLoop_step fat h MAX_BLOCKS hne hnf, hbad]
  rw [show MAX_BLOCKS = 65535 + 1 from by decide]
  rw [freeLoop_step _ FAT_ENTRY_BAD 65535 (by decide) (by decide)]
  have hupd : (updateFn fat h FAT_ENTRY_FREE) FAT_ENTRY_BAD = FAT_ENTRY_EOF := by
    unfold updateFn
    rw [if_neg (fun hcon => hhb hcon.symm), hbadentry]
  rw [hupd, freeLoop_stop _ _ _ (Or.inl rfl)]
  unfold updateFn
  rw [if_pos rfl]

theorem free_blocks_spec_amended_witness :
    free_blocks demoFat FAT_ENTRY_EOF = demoFat ∧
    (free_blocks demoFat 130) 130 = FAT_ENTRY_FREE ∧
    (free_blocks demoFat 130) 131 = demoFat 131 ∧
    (free_blocks c5Fat 200) FAT_ENTRY_BAD = FAT_ENTRY_FREE := by
  have hchain : FatChain demoFat 130 [130] := by
    refine FatChain.cons 130 [] (by decide) (by decide) (by decide) (by simp) ?_
    exact FatChain.nil
  have h2 := free_blocks_spec_amended.2.1 demoFat 130 [130] hchain
  refine ⟨free_blocks_spec_amended.1 demoFat, h2.1 130 (by simp), h2.2 131 (by simp), ?_⟩
  exact free_blocks_spec_amended.2.2 c5Fat 200 (by decide) (by decide) (by decide) (by decide)

/-- A state whose single file claims 2048 bytes while its FAT chain has
only one block: entry `"c"` (byte 99) with `file_size = 2048`,
`first_block = 130`, `fat 130 = EOF`. -/
def c7Entry : DirectoryEntry :=
  { filename := [99], file_size := 2048, first_block := 130, type := TYPE_FILE,
    created_time := 0, modified_time := 0, attributes := 0 }

def c7Dir : Directory := { entries := c7Entry :: List.replicate 127 zeroEntry, entry_count := 1 }

def c7State : FSState := { fat := demoFat, disk := fun _ => [], dir := c7Dir }

/-- C7 counterexample: on a file whose chain (length 1) is shorter than
`ceil(file_size / BLOCK_SIZE) = 2` blocks, `read_file` succeeds and
returns only 1024 bytes — it does not fail with ChainCorrupt (no such
check, and no such error, exists in the code). -/
theorem read_no_chaincorrupt_cex :
    (read_file c7State [99]).1 = FSRes.ok ∧
    (read_file c7State [99]).2.length = 1024 := by decide

/-- C7 (amended): `read_file` on an existing FILE entry performs no
chain-length validation and never reports an error: it always succeeds,
returning `min file_size (BLOCK_SIZE * chain length)` bytes — fewer than
`file_size` when the chain is shorter than `file_size` implies. -/
theorem read_file_no_check_amended (s : FSState) (name : List Nat) (idx : Nat)
    (l : List Nat)
    (hfind : findFileIdx s.dir.entries name = some idx)
    (htype : (s.dir.entries.getD idx zeroEntry).type = TYPE_FILE)
    (hchain : FatChain s.fat (s.dir.entries.getD idx zeroEntry).first_block l) :
    (read_file s name).1 = FSRes.ok ∧
    (read_file s name).2.length =
      min (s.dir.entries.getD idx zeroEntry).file_size (BLOCK_SIZE * l.length) := by
  unfold read_file
  rw [hfind]
  simp only []
  rw [if_neg (not_not_intro htype)]
  by_cases hz : (s.dir.entries.getD idx zeroEntry).file_size = 0
  · rw [if_pos hz]
    refine ⟨rfl, ?_⟩
    rw [hz]
    simp
  · rw [if_neg hz]
    exact ⟨rfl, readLoop_length s.fat s.disk _ _ _ hchain (by omega)⟩

theorem read_file_no_check_amended_witness :
    (read_file c7State [99]).1 = FSRes.ok ∧
    (read_file c7State [99]).2.length = min 2048 (BLOCK_SIZE * 1) := by
  have hchain : FatChain demoFat 130 [130] := by
    refine FatChain.cons 130 [] (by decide) (by decide) (by decide) (by simp) ?_
    exact FatChain.nil
  exact read_file_no_check_amended c7State [99] 0 [130] (by decide) (by decide) hchain

end Fatfs

namespace Fatfs

/-- C8: `delete_file` on a missing name fails NotFound and on a directory
entry fails NotAFile, both leaving the state unchanged; on a FILE entry
with chain `l` it succeeds, every block of the chain becomes FREE in the
FAT, and the directory slot is entirely zeroed. -/
theorem delete_file_spec (s : FSState) (name : List Nat) :
    (findFileIdx s.dir.entries name = none →
      delete_file s name = (FSRes.err FSErr.NotFound, s)) ∧
    (∀ idx, findFileIdx s.dir.entries name = some idx →
      ((s.dir.entries.getD idx zeroEntry).type ≠ TYPE_FILE →
        delete_file s name = (FSRes.err FSErr.NotAFile, s)) ∧
      ((s.dir.entries.getD idx zeroEntry).type = TYPE_FILE →
        ∀ l, FatChain s.fat (s.dir.entries.getD idx zeroEntry).first_block l →
          (delete_file s name).1 = FSRes.ok ∧
          (∀ x ∈ l, (delete_file s name).2.fat x = FAT_ENTRY_FREE) ∧
          (delete_file s name).2.dir.entries.getD idx zeroEntry = zeroEntry)) := by
  constructor
  · intro hnone
    unfold delete_file
    rw [hnone]
  · intro idx hfind
    constructor
    · intro htype
      unfold delete_file
      rw [hfind]
      simp only []
      rw [if_pos htype]
    · intro htype l hchain
      unfold delete_file
      rw [hfind]
      simp only []
      rw [if_neg (not_not_intro htype)]
      refine ⟨rfl, ?_, ?_⟩
      · intro x hx
        simp only []
        by_cases hfb : (s.dir.entries.getD idx zeroEntry).first_block ≠ FAT_ENTRY_EOF
        · rw [if_pos hfb]
          exact (free_blocks_chain hchain).1 x hx
        · push_neg at hfb
          rw [hfb] at hchain
          rcases hchain.head_cases with ⟨_, hnil⟩ | ⟨l', _, hne2, _⟩
          · subst hnil
            simp at hx
          · exact absurd rfl hne2
      · simp only []
        exact getD_set_self zeroEntry zeroEntry s.dir.entries idx (findFileIdx_spec hfind).1

theorem delete_file_spec_witness :
    (delete_file demoState [97]).1 = FSRes.ok ∧
    (delete_file demoState [97]).2.fat 130 = FAT_ENTRY_FREE ∧
    (delete_file demoState [97]).2.dir.entries.getD 0 zeroEntry = zeroEntry ∧
    delete_file demoState [98] = (FSRes.err FSErr.NotFound, demoState) := by
  have hchain : FatChain demoFat 130 [130] := by
    refine FatChain.cons 130 [] (by decide) (by decide) (by decide) (by simp) ?_
    exact FatChain.nil
  have h := ((delete_file_spec demoState [97]).2 0 (by decide)).2 (by decide) [130] hchain
  exact ⟨h.1, h.2.1 130 (by simp), h.2.2, (delete_file_spec demoState [98]).1 (by decide)⟩

lemma getD_replicate {α : Type} (a : α) :
    ∀ n k, (List.replicate n a).getD k a = a := by
  intro n
  induction n with
  | zero => intro k; simp [List.getD]
  | succ m ih =>
    intro k
    cases k with
    | zero => simp [List.replicate_succ]
    | succ k2 =>
      rw [List.replicate_succ, List.getD_cons_succ]
      exact ih k2

/-- C9: the geometry written by `format_partition` is
`fat_blocks = 128`, `root_dir_block = 129`, `data_start_block = 130`;
every FAT entry below 130 is BAD and every entry in `[130, 65536)` is
FREE; the root directory block is entirely zeroed with `entry_count = 0`. -/
theorem format_partition_spec (now : Nat) :
    (format_partition now).1.fat_blocks = 128 ∧
    (format_partition now).1.root_dir_block = 129 ∧
    (format_partition now).1.data_start_block = 130 ∧
    (∀ i, i < 130 → (format_partition now).2.1 i = FAT_ENTRY_BAD) ∧
    (∀ i, 130 ≤ i → i < MAX_BLOCKS → (format_partition now).2.1 i = FAT_ENTRY_FREE) ∧
    (format_partition now).2.2.entry_count = 0 ∧
    (∀ k, (format_partition now).2.2.entries.getD k zeroEntry = zeroEntry) := by
  refine ⟨rfl, rfl, rfl, ?_, ?_, rfl, ?_⟩
  · intro i hi
    show (if i < 130 then FAT_ENTRY_BAD else FAT_ENTRY_FREE) = FAT_ENTRY_BAD
    rw [if_pos hi]
  · intro i h1 _
    show (if i < 130 then FAT_ENTRY_BAD else FAT_ENTRY_FREE) = FAT_ENTRY_FREE
    rw [if_neg (by omega)]
  · intro k
    show (List.replicate MAX_FILES_IN_DIR zeroEntry).getD k zeroEntry = zeroEntry
    exact getD_replicate zeroEntry MAX_FILES_IN_DIR k

theorem format_partition_spec_witness :
    (format_partition 0).1.fat_blocks = 128 ∧
    (format_partition 0).2.1 5 = FAT_ENTRY_BAD ∧
    (format_partition 0).2.1 200 = FAT_ENTRY_FREE ∧
    (format_partition 0).2.2.entries.getD 3 zeroEntry = zeroEntry := by
  have h := format_partition_spec 0
  exact ⟨h.1, h.2.2.2.1 5 (by decide), h.2.2.2.2.1 200 (by decide) (by decide),
    h.2.2.2.2.2.2 3⟩

end Fatfs

namespace Fatfs

/-- An empty file `"b"` (byte 98) in the root directory. -/
def c1Entry : DirectoryEntry :=
  { filename := [98], file_size := 0, first_block := FAT_ENTRY_EOF, type := TYPE_FILE,
    created_time := 0, modified_time := 0, attributes := 0 }

def c1Dir : Directory := { entries := c1Entry :: List.replicate 127 zeroEntry, entry_count := 1 }

/-- A FAT whose only FREE data block is index 0xFFFE = 65534 (the EOF
sentinel's numeric value). -/
def c1Fat : Nat → Nat := fun i => if i = FAT_ENTRY_EOF then FAT_ENTRY_FREE else FAT_ENTRY_EOF

def c1State : FSState := { fat := c1Fat, disk := fun _ => [], dir := c1Dir }

/-- The state produced by writing one byte to `"b"` in `c1State`. -/
def c1Res : FSState :=
  { fat := updateFn (writeStartFat c1Fat FAT_ENTRY_EOF) 65534 FAT_ENTRY_EOF,
    disk := updateDisk (fun _ => ([] : List Nat)) 65534 (chunkBlock [104]),
    dir := { entries := c1Dir.entries.set 0 (writeEntry c1Entry 65534 1 0),
             entry_count := 1 } }

lemma c1_alloc1 : allocate_block (writeStartFat c1Fat FAT_ENTRY_EOF) =
    (65534, updateFn (writeStartFat c1Fat FAT_ENTRY_EOF) 65534 FAT_ENTRY_EOF) := by
  have hd : DATA_START_BLOCK = 130 := by decide
  have hmiss : ∀ j, DATA_START_BLOCK ≤ j → j < DATA_START_BLOCK + 65404 →
      writeStartFat c1Fat FAT_ENTRY_EOF j ≠ FAT_ENTRY_FREE := by
    intro j h1 h2
    rw [hd] at h1 h2
    unfold writeStartFat
    rw [if_neg (show ¬(FAT_ENTRY_EOF ≠ FAT_ENTRY_EOF) from by simp)]
    unfold c1Fat
    rw [if_neg (show j ≠ FAT_ENTRY_EOF from by
      rw [show FAT_ENTRY_EOF = 65534 from rfl]; omega)]
    decide
  have hhit : writeStartFat c1Fat FAT_ENTRY_EOF (DATA_START_BLOCK + 65404)
      = FAT_ENTRY_FREE := by decide
  have hB := findFree_eq_some (writeStartFat c1Fat FAT_ENTRY_EOF)
    (MAX_BLOCKS - DATA_START_BLOCK) DATA_START_BLOCK 65404 (by decide) hmiss hhit
  rw [show DATA_START_BLOCK + 65404 = 65534 from by decide] at hB
  exact allocate_of_findFree_some _ 65534 hB

lemma c1_writeloop :
    writeLoop (([104] : List Nat).length + 1) (writeStartFat c1Fat FAT_ENTRY_EOF)
      (fun _ => ([] : List Nat)) [104] FAT_ENTRY_EOF FAT_ENTRY_EOF =
    (some (65534, 65534), updateFn (writeStartFat c1Fat FAT_ENTRY_EOF) 65534 FAT_ENTRY_EOF,
      updateDisk (fun _ => ([] : List Nat)) 65534 (chunkBlock [104])) := by
  rw [show (([104] : List Nat).length + 1) = 1 + 1 from rfl]
  rw [writeLoop_succ_step 1 _ _ _ _ _ (by decide) (by rw [c1_alloc1]; decide)]
  rw [show (allocate_block (writeStartFat c1Fat FAT_ENTRY_EOF)).1 = 65534 from
    by rw [c1_alloc1]]
  rw [show (allocate_block (writeStartFat c1Fat FAT_ENTRY_EOF)).2 =
    updateFn (writeStartFat c1Fat FAT_ENTRY_EOF) 65534 FAT_ENTRY_EOF from
    by rw [c1_alloc1]]
  rw [if_neg (show ¬(FAT_ENTRY_EOF ≠ FAT_ENTRY_EOF) from by simp), if_pos rfl]
  rw [show (([104] : List Nat).drop BLOCK_SIZE) = [] from by decide]
  rw [show (1 : Nat) = 0 + 1 from rfl]
  rw [writeLoop_succ_zero 0 _ _ _ _ _ (by decide)]

lemma c1_write_eq : write_file c1State [98] [104] 0 = (FSRes.ok, c1Res) := by
  unfold write_file
  rw [show findFileIdx c1State.dir.entries [98] = some 0 from by decide]
  simp only []
  unfold write_file_found
  rw [if_neg (show ¬((c1State.dir.entries.getD 0 zeroEntry).type ≠ TYPE_FILE)
    from by decide)]
  rw [if_neg (show ¬(MAX_FILE_BLOCKS * BLOCK_SIZE < ([104] : List Nat).length)
    from by decide)]
  rw [show (c1State.dir.entries.getD 0 zeroEntry).first_block = FAT_ENTRY_EOF
    from by decide]
  rw [show c1State.fat = c1Fat from rfl]
  rw [show c1State.disk = (fun _ => ([] : List Nat)) from rfl]
  rw [c1_writeloop]
  rfl

/-- C1 counterexample: on a mounted state whose only FREE data block is
index 0xFFFE, writing one byte to the empty file `"b"` succeeds (first-fit
allocates block 0xFFFE and records it as the chain head), but reading the
file back returns no bytes at all — the read walk sees `first_block =
0xFFFE` as end-of-chain.  The round trip of the claim fails. -/
theorem write_roundtrip_claim_cex :
    write_file c1State [98] [104] 0 = (FSRes.ok, c1Res) ∧
    read_file c1Res [98] = (FSRes.ok, []) ∧
    ([] : List Nat) ≠ [104] := by
  exact ⟨c1_write_eq, by decide, by decide⟩

/-- The FAT of a freshly formatted image: every index below the data
region is BAD, every data index is FREE. -/
def w1Fat : Nat → Nat :=
  fun i => if i < DATA_START_BLOCK then FAT_ENTRY_BAD else FAT_ENTRY_FREE

def w1State : FSState := { fat := w1Fat, disk := fun _ => [], dir := c1Dir }

theorem write_read_roundtrip_witness :
    read_file (write_file w1State [98] [104] 3).2 [98] = (FSRes.ok, [104]) ∧
    ((write_file w1State [98] [104] 3).2.dir.entries.getD 0 zeroEntry).file_size =
      ([104] : List Nat).length := by
  have h1 : (write_file w1State [98] [104] 3).1 = FSRes.ok := by decide
  have hok : write_file w1State [98] [104] 3 =
      ((write_file w1State [98] [104] 3).1, (write_file w1State [98] [104] 3).2) := rfl
  rw [h1] at hok
  exact write_read_roundtrip w1State [98] [104] 3 0 (write_file w1State [98] [104] 3).2
    [130] (by decide) (by decide) (by decide) (by decide) hok

end Fatfs
